import Mathlib

/-!
Verification development for the shalini-prabha-gallery batch photo pipeline.

The JavaScript sources under scripts/ (update-photos-yaml.js, classify-images.js,
import-instagram-folder.js) and the batch processor (batch-process.js) are embedded
shallowly below.  JS strings are modelled as lists of characters (`Str`), JS numbers
appearing in this code base as `Nat`/`Int`/`Rat` (token counts and timestamps are
integers; prices are exact rationals), and the file system / network / clock are
modelled as explicit oracle parameters (`Env`, outcome functions), since every claim
under scrutiny is independent of the concrete platform behaviour behind them.
-/

/-- JS strings are modelled as lists of characters. -/
abbrev Str := List Char

/-- Decimal digit test, by code point (48..57), as used by `parseInt`. -/
def isDigit (c : Char) : Bool := decide (48 ≤ c.toNat ∧ c.toNat ≤ 57)

/-- White space recognised by `parseInt` when trimming (common ASCII space chars). -/
def isJsWs (c : Char) : Bool :=
  decide (c.toNat = 32 ∨ c.toNat = 9 ∨ c.toNat = 10 ∨ c.toNat = 11 ∨ c.toNat = 12 ∨ c.toNat = 13)

/-- The decimal digit character for `n < 10` (defaults to `0` out of range). -/
def digitChar : Nat → Char
  | 0 => '0'
  | 1 => '1'
  | 2 => '2'
  | 3 => '3'
  | 4 => '4'
  | 5 => '5'
  | 6 => '6'
  | 7 => '7'
  | 8 => '8'
  | 9 => '9'
  | _ => '0'

/-- Fuel-driven decimal printer (the fuel is always sufficient at the call site). -/
def natReprAux : Nat → Nat → Str
  | 0, _ => []
  | fuel + 1, n =>
      if n < 10 then [digitChar n]
      else natReprAux fuel (n / 10) ++ [digitChar (n % 10)]

/-- Decimal representation of a natural number, as JS `String(n)` produces it. -/
def natRepr (n : Nat) : Str := natReprAux (n + 1) n

/-- Value of a string of decimal digits (the accumulator loop of `parseInt`). -/
def digitsVal (l : Str) : Nat := l.foldl (fun a c => a * 10 + (c.toNat - 48)) 0

/-- Drop a single leading plus sign, as `parseInt` does with the sign character. -/
def stripPlus : Str → Str
  | [] => []
  | c :: rest => if c = '+' then rest else c :: rest

/-- `parseInt(s, 10)`: skip leading white space and an optional plus sign, then read
a maximal run of leading decimal digits; no digits means NaN (`none`).  (The call
sites below feed it components of `split(-)`, which cannot contain a minus sign,
so the negative-number branch of `parseInt` is unreachable and omitted.) -/
def parseIntJs (l : Str) : Option Nat :=
  let ds := (stripPlus (l.dropWhile isJsWs)).takeWhile isDigit
  if ds = [] then none else some (digitsVal ds)

/-- `s.split(-)`: split a string at every hyphen (components keep no hyphen). -/
def splitDash : Str → List Str
  | [] => [[]]
  | c :: rest =>
      if c = '-' then [] :: splitDash rest
      else
        match splitDash rest with
        | [] => [[c]]
        | h :: t => (c :: h) :: t

/-- `s.split(-).pop()`: the last component of the hyphen-split. -/
def lastComponent (l : Str) : Str := (splitDash l).getLastD []

/-- `s.padStart(3, "0")`. -/
def padStart3 (l : Str) : Str :=
  if 3 ≤ l.length then l else List.replicate (3 - l.length) '0' ++ l

/-! ## Slug generation (update-photos-yaml.js `generateSlug`, also batch-process.js) -/

/-- Membership in the character class a-z0-9 of the slug regex. -/
def isLowerAlnum (c : Char) : Bool :=
  decide ((97 ≤ c.toNat ∧ c.toNat ≤ 122) ∨ (48 ≤ c.toNat ∧ c.toNat ≤ 57))

/-- First half of the regex replace: every character outside a-z0-9 becomes a hyphen. -/
def mapNonAlnum (l : Str) : Str := l.map (fun c => if isLowerAlnum c then c else '-')

/-- Second half: collapse each run of hyphens to a single hyphen (together with
`mapNonAlnum` this is the global replace of non-alphanumeric runs by one hyphen). -/
def squeezeDashes : Str → Str
  | [] => []
  | [c] => [c]
  | c1 :: c2 :: rest =>
      if c1 = '-' ∧ c2 = '-' then squeezeDashes (c2 :: rest)
      else c1 :: squeezeDashes (c2 :: rest)

/-- The leading-anchor half of the trim regex: remove one leading hyphen. -/
def trimLeadDash : Str → Str
  | [] => []
  | c :: rest => if c = '-' then rest else c :: rest

/-- The trailing-anchor half of the trim regex: remove one trailing hyphen. -/
def trimTrailDash (l : Str) : Str :=
  match l.reverse with
  | [] => l
  | c :: rest => if c = '-' then rest.reverse else l

/-- JS `toLowerCase` of one character, as a string.  `Char.toLower` covers the
ASCII range; the only two Unicode code points whose lowercase mapping lands in
ASCII are U+0130 (LATIN CAPITAL LETTER I WITH DOT ABOVE, lowercased to "i"
followed by combining dot above U+0307) and U+212A (KELVIN SIGN, lowercased to
"k"), mapped explicitly here.  Every other non-ASCII character has a non-ASCII
lowercase, and on either side of the mapping it falls outside a-z0-9, so the slug
regex replaces it by a hyphen exactly as in the source. -/
def jsToLower (c : Char) : Str :=
  if c.toNat = 304 then ['i', Char.ofNat 775]
  else if c.toNat = 8490 then ['k']
  else [c.toLower]

/-- `generateSlug(title)`: lower-case, collapse non-alphanumeric runs to hyphens,
trim a leading/trailing hyphen, truncate to 50 characters. -/
def generateSlug (title : Str) : Str :=
  (trimTrailDash (trimLeadDash (squeezeDashes (mapNonAlnum ((title.map jsToLower).flatten))))).take 50

/-! ## Calendar arithmetic (model of `new Date(ms).toISOString()`) -/

/-- Left-pad a string with zeros to width `k`. -/
def padZeros (k : Nat) (l : Str) : Str :=
  if k ≤ l.length then l else List.replicate (k - l.length) '0' ++ l

/-- Gregorian date from days since the Unix epoch (standard civil-from-days). -/
def civilFromDays (z0 : Int) : Int × Nat × Nat :=
  let z := z0 + 719468
  let era : Int := Int.fdiv z 146097
  let doe : Nat := (z - era * 146097).toNat
  let yoe : Nat := (doe - doe / 1460 + doe / 36524 - doe / 146096) / 365
  let y : Int := (yoe : Int) + era * 400
  let doy : Nat := doe - (365 * yoe + yoe / 4 - yoe / 100)
  let mp : Nat := (5 * doy + 2) / 153
  let d : Nat := doy - (153 * mp + 2) / 5 + 1
  let m : Nat := if mp < 10 then mp + 3 else mp - 9
  (if m ≤ 2 then y + 1 else y, m, d)

/-- The year field of an ISO timestamp (expanded 6-digit form outside 0..9999). -/
def isoYearStr (y : Int) : Str :=
  if 0 ≤ y ∧ y ≤ 9999 then padZeros 4 (natRepr y.toNat)
  else if y < 0 then '-' :: padZeros 6 (natRepr y.natAbs)
  else '+' :: padZeros 6 (natRepr y.toNat)

/-- Model of `new Date(ms).toISOString()` for a valid millisecond timestamp. -/
def toISOString (ms : Int) : Str :=
  let days := Int.fdiv ms 86400000
  let rem : Nat := (Int.emod ms 86400000).toNat
  let ymd := civilFromDays days
  isoYearStr ymd.1 ++ '-' :: padZeros 2 (natRepr ymd.2.1) ++ '-' :: padZeros 2 (natRepr ymd.2.2)
    ++ 'T' :: padZeros 2 (natRepr (rem / 3600000))
    ++ ':' :: padZeros 2 (natRepr (rem % 3600000 / 60000))
    ++ ':' :: padZeros 2 (natRepr (rem % 60000 / 1000))
    ++ '.' :: padZeros 3 (natRepr (rem % 1000)) ++ ['Z']

/-! ## JS values and the Instagram metadata helpers (import-instagram-folder.js) -/

/-- The JS values that can reach `normalizeTimestamp`: null/undefined, a number, or
a string.  (Numbers are restricted to integers: Instagram timestamps are integral.) -/
inductive JsValue where
  | vnull : JsValue
  | vnum : Int → JsValue
  | vstr : Str → JsValue
deriving DecidableEq, Repr

/-- JS truthiness of those values. -/
def truthy : JsValue → Bool
  | .vnull => false
  | .vnum n => decide (n ≠ 0)
  | .vstr s => decide (s ≠ [])

/-- JS `Number(value)` on the values above (`none` is NaN; decimal integer literals
only — the float/hex string forms are never produced by the Instagram export). -/
def toNumber : JsValue → Option Int
  | .vnull => some 0
  | .vnum n => some n
  | .vstr s =>
      let t := ((s.dropWhile isJsWs).reverse.dropWhile isJsWs).reverse
      if t = [] then some 0
      else if t.head? = some '-' then
        (if t.tail ≠ [] ∧ t.tail.all isDigit then some (-(digitsVal t.tail : Int)) else none)
      else if t.head? = some '+' then
        (if t.tail ≠ [] ∧ t.tail.all isDigit then some ((digitsVal t.tail : Int)) else none)
      else if t.all isDigit then some ((digitsVal t : Int)) else none

/-- `normalizeTimestamp(value)` (import-instagram-folder.js lines 140-146): falsy
values give null; a finite number is kept as milliseconds when above 10^12 and
multiplied by 1000 (seconds) otherwise. -/
def normalizeTimestamp (value : JsValue) : Option Int :=
  if truthy value = false then none
  else
    match toNumber value with
    | none => none
    | some num => some (if num > 1000000000000 then num else num * 1000)

/-- `toDateString(timestampMs)` (lines 148-155): falsy gives the empty string, and a
timestamp outside the valid `Date` range makes `toISOString` throw, caught to give
the empty string; otherwise the first 10 characters of the ISO timestamp. -/
def toDateString (timestampMs : Option Int) : Str :=
  match timestampMs with
  | none => []
  | some t =>
      if t = 0 then []
      else if t.natAbs ≤ 8640000000000000 then (toISOString t).take 10
      else []

/-! ## Photo records and the merge script (update-photos-yaml.js) -/

/-- A record of config/photos.yaml.  Fields that the scripts leave out of a record
(`undefined` removed before serialisation) are `none`; a missing `filename` on a
hand-edited existing record is modelled as the empty string (both are falsy). -/
structure Photo where
  id : Str
  filename : Str
  slug : Str
  category : Str
  filters : List Str
  species : Option Str
  location : Option Str
  title : Str
  description : Str
  instagram_caption : Option Str
  date_taken : Str
  available_for_print : Bool
  cloudinary_id : Option Str
  width : Option Nat
  height : Option Nat
deriving DecidableEq, Repr

/-- An entry of captioned-photos.json, input of the merge step. -/
structure Captioned where
  filename : Str
  path : Str
  category : Str
  filter : Option Str
  species : Option Str
  location : Option Str
  title : Str
  description : Str
  instagramCaption : Str
  instagramDate : Str
  instagramTimestamp : Option Int
  instagramLocation : Str
deriving DecidableEq, Repr

/-- Oracles for the platform: file existence, Cloudinary configuration and upload
success, image dimension probing, and the current date used for missing dates. -/
structure Env where
  fsExists : Str → Bool
  cloudinaryOn : Bool
  uploadOk : Str → Bool
  dims : Str → Option (Nat × Nat)
  today : Str

/-- The side effects one merge iteration can perform for a photo. -/
inductive Effect where
  | mkdirDir : Str → Effect
  | move : Str → Str → Effect
  | upload : Str → Effect
deriving DecidableEq, Repr

def validCategoriesJs : List Str :=
  ["birds".data, "wildlife".data, "landscapes".data, "flora-macro".data]

def validFiltersJs : List Str :=
  ["mountains".data, "waterfalls".data, "cityscapes".data]

/-- The category-to-id-prefix map of `generateId` (`{...}[category] || category`). -/
def prefixFor (category : Str) : Str :=
  if category = "birds".data then "bird".data
  else if category = "wildlife".data then "wildlife".data
  else if category = "landscapes".data then "landscape".data
  else if category = "flora-macro".data then "flora".data
  else category

/-- `parseInt(id.split(-).pop(), 10)`. -/
def idNum (id : Str) : Option Nat := parseIntJs (lastComponent id)

/-- The ids of the photos of one category. -/
def catIds (category : Str) (photos : List Photo) : List Str :=
  (photos.filter (fun p => decide (p.category = category))).map (fun p => p.id)

/-- The id string built from a category and a sequence number (prefix, hyphen,
zero-padded number), shared shape of both id generators. -/
def mkId (category : Str) (n : Nat) : Str :=
  prefixFor category ++ '-' :: padStart3 (natRepr n)

/-- `generateId(category, existingPhotos, newPhotos)` (update-photos-yaml.js
lines 240-261). -/
def generateId (category : Str) (existingPhotos newPhotos : List Photo) : Str :=
  let existingIds := catIds category existingPhotos ++ catIds category newPhotos
  let numbers := existingIds.filterMap idNum
  let maxNum := numbers.foldl max 0
  mkId category (maxNum + 1)

/-- Maximum parsed numeric suffix of a category's ids (0 when there is none). -/
def maxIdNum (category : Str) (photos : List Photo) : Nat :=
  ((catIds category photos).filterMap idNum).foldl max 0

/-- The new photos of a given category. -/
def newOfCat (category : Str) (photos : List Photo) : List Photo :=
  photos.filter (fun p => decide (p.category = category))

/-- `slug + "-" + counter`. -/
def slugWith (slug : Str) (k : Nat) : Str := slug ++ '-' :: natRepr k

/-- The set of slugs `ensureUniqueSlug` checks against. -/
def allSlugsOf (existingPhotos newPhotos : List Photo) : List Str :=
  existingPhotos.map (fun p => p.slug) ++ newPhotos.map (fun p => p.slug)

/-- The counter loop of `ensureUniqueSlug`; the fuel is sufficient at the call site
(the loop always terminates before it runs out, see `findSuffix_spec`). -/
def findSuffix (slugs : List Str) (slug : Str) : Nat → Nat → Str
  | c, 0 => slugWith slug c
  | c, fuel + 1 =>
      if slugWith slug c ∈ slugs then findSuffix slugs slug (c + 1) fuel
      else slugWith slug c

/-- `ensureUniqueSlug(slug, existingPhotos, newPhotos)` (lines 222-238). -/
def ensureUniqueSlug (slug : Str) (existingPhotos newPhotos : List Photo) : Str :=
  let allSlugs := allSlugsOf existingPhotos newPhotos
  if slug ∈ allSlugs then findSuffix allSlugs slug 2 (allSlugs.length + 1)
  else slug

/-- `existingByFilename.has(filename)`: the map is keyed by the truthy filenames of
the existing photos. -/
def existingHasFilename (existingPhotos : List Photo) (f : Str) : Bool :=
  existingPhotos.any (fun p => decide (¬ p.filename = []) && decide (p.filename = f))

/-- Node `extname(filename)`: the suffix from the last dot, empty when there is no
dot or the only dot leads the name. -/
def extnameOf (f : Str) : Str :=
  let revAfter := f.reverse.takeWhile (fun c => ¬ (c = '.'))
  if revAfter.length = f.length then []
  else if revAfter.length + 1 = f.length then []
  else '.' :: revAfter.reverse

def pathJoin (a b : Str) : Str := a ++ '/' :: b

def PHOTOS_DIR : Str := "public/photos".data

def PENDING_DIR : Str := "public/photos/pending".data

/-- `a || b` on strings. -/
def orStr (a b : Str) : Str := if a = [] then b else a

/-- `s || undefined` on a string. -/
def strOrUndef (s : Str) : Option Str := if s = [] then none else some s

/-- `v || null` / `v || undefined` on an optional string (empty string is falsy). -/
def optTruthy (o : Option Str) : Option Str :=
  match o with
  | some s => if s = [] then none else some s
  | none => none

/-- `v || null` on an optional number (zero is falsy). -/
def optIntTruthy (o : Option Int) : Option Int :=
  match o with
  | some t => if t = 0 then none else some t
  | none => none

/-- The Cloudinary public id recorded on successful upload. -/
def cloudinaryFolderId (category slug : Str) : Str :=
  "photo-gallery/".data ++ category ++ '/' :: slug

/-- `resolveDateTaken(instagramDate, instagramTimestamp)` (lines 279-293); `today`
is the oracle for `new Date()`. -/
def resolveDateTaken (today : Str) (instagramDate : Str) (instagramTimestamp : Option Int) :
    Str :=
  if instagramDate ≠ [] then instagramDate
  else
    match instagramTimestamp with
    | some num =>
        if num ≠ 0 then
          let ms := if num > 1000000000000 then num else num * 1000
          (toISOString ms).takeWhile (fun c => ¬ (c = 'T'))
        else today
    | none => today

/-- The record built and the effects performed for an accepted (non-skipped) photo
of the merge loop (update-photos-yaml.js lines 108-183). -/
def acceptPhoto (env : Env) (existingPhotos newPhotos : List Photo) (c : Captioned) :
    Photo × List Effect :=
  let slug := generateSlug c.title
  let uniqueSlug := ensureUniqueSlug slug existingPhotos newPhotos
  let id := generateId c.category existingPhotos newPhotos
  let categoryDir := pathJoin PHOTOS_DIR c.category
  let mkdirEffects := if env.fsExists categoryDir then [] else [Effect.mkdirDir categoryDir]
  let ext := extnameOf c.filename
  let newFilename := uniqueSlug ++ ext
  let destPath := pathJoin categoryDir newFilename
  let moveEffects := if env.fsExists c.path then [Effect.move c.path destPath] else []
  let dimensions := env.dims destPath
  let doUpload := env.cloudinaryOn && env.fsExists destPath
  let uploadEffects := if doUpload then [Effect.upload destPath] else []
  let cloudinaryId :=
    if doUpload && env.uploadOk destPath then some (cloudinaryFolderId c.category uniqueSlug)
    else none
  ({ id := id
     filename := newFilename
     slug := uniqueSlug
     category := c.category
     filters := match c.filter with | some f => if f = [] then [] else [f] | none => []
     species := optTruthy c.species
     location :=
       if c.instagramLocation ≠ [] then some c.instagramLocation else optTruthy c.location
     title := c.title
     description := c.description
     instagram_caption := strOrUndef c.instagramCaption
     date_taken := resolveDateTaken env.today c.instagramDate c.instagramTimestamp
     available_for_print := true
     cloudinary_id := cloudinaryId
     width := dimensions.map Prod.fst
     height := dimensions.map Prod.snd },
   mkdirEffects ++ moveEffects ++ uploadEffects)

/-- One iteration of the merge loop (update-photos-yaml.js lines 87-184): `none`
when the photo is skipped because its filename is already in the store, otherwise
the new record and the side effects performed for it. -/
def processOne (env : Env) (existingPhotos newPhotos : List Photo) (c : Captioned) :
    Option (Photo × List Effect) :=
  if existingHasFilename existingPhotos c.filename then none
  else some (acceptPhoto env existingPhotos newPhotos c)

/-- The merge loop, accumulating `newPhotos` and the effect trace. -/
def processBatchAux (env : Env) (existingPhotos : List Photo) :
    List Captioned → List Photo → List Effect → List Photo × List Effect
  | [], acc, effs => (acc, effs)
  | c :: rest, acc, effs =>
      match processOne env existingPhotos acc c with
      | none => processBatchAux env existingPhotos rest acc effs
      | some pe => processBatchAux env existingPhotos rest (acc ++ [pe.1]) (effs ++ pe.2)

def processBatch (env : Env) (existingPhotos : List Photo) (inputs : List Captioned) :
    List Photo × List Effect :=
  processBatchAux env existingPhotos inputs [] []

/-- Content of config/photos.yaml after the merge run: the merged list when a write
happens, the untouched previous list otherwise — in both cases existing followed by
the accepted new records. -/
def mergeStore (env : Env) (existingPhotos : List Photo) (inputs : List Captioned) :
    List Photo :=
  existingPhotos ++ (processBatch env existingPhotos inputs).1

/-- How many times the merge run writes photos.yaml: the early returns for an empty
input list or an all-skipped batch write nothing, otherwise one write at the end. -/
def mergeWriteCount (env : Env) (existingPhotos : List Photo) (inputs : List Captioned) :
    Nat :=
  if (processBatch env existingPhotos inputs).1 = [] then 0 else 1

/-! ## Classifier (classify-images.js) -/

/-- The fields `parseClassificationResponse` reads off the parsed JSON object; a
field that is absent or not a string is `none` (it then never matches the string
enumerations). -/
structure RawClassification where
  category : Option Str
  filter : Option Str
  species : Option Str
  location : Option Str
deriving DecidableEq, Repr

/-- A classification outcome; `error` is set only by the fallback path of the batch
loop. -/
structure Classification where
  category : Str
  filter : Option Str
  species : Option Str
  location : Option Str
  error : Option Str
deriving DecidableEq, Repr

def openBrace : Char := Char.ofNat 123

def closeBrace : Char := Char.ofNat 125

/-- The greedy regex match over the response text: the substring from the first
opening brace through the last closing brace, when both exist in that order. -/
def extractJsonSpan (s : Str) : Option Str :=
  let pre := s.takeWhile (fun c => ¬ (c = openBrace))
  if pre.length = s.length then none
  else
    let fromOpen := s.drop pre.length
    let revTail := fromOpen.reverse.takeWhile (fun c => ¬ (c = closeBrace))
    if revTail.length = fromOpen.length then none
    else some (fromOpen.take (fromOpen.length - revTail.length))

/-- `validCategories.includes(parsed.category) ? parsed.category : "flora-macro"`. -/
def categoryOfParsed (parsed : RawClassification) : Str :=
  match parsed.category with
  | some s => if s ∈ validCategoriesJs then s else "flora-macro".data
  | none => "flora-macro".data

/-- `category === "landscapes" && validFilters.includes(parsed.filter)
? parsed.filter : null`. -/
def filterOfParsed (category : Str) (parsed : RawClassification) : Option Str :=
  if category = "landscapes".data then
    match parsed.filter with
    | some f => if f ∈ validFiltersJs then some f else none
    | none => none
  else none

/-- `parseClassificationResponse(response)` (classify-images.js lines 175-197),
parameterised by a model of `JSON.parse` (`none` is a parse exception). -/
def parseClassificationResponse (jsonParse : Str → Option RawClassification)
    (response : Str) : Except Str Classification :=
  match extractJsonSpan response with
  | none => .error "No JSON found in response".data
  | some sub =>
      match jsonParse sub with
      | none => .error "JSON.parse error".data
      | some parsed =>
          let category := categoryOfParsed parsed
          .ok { category := category, filter := filterOfParsed category parsed,
                species := optTruthy parsed.species,
                location := optTruthy parsed.location,
                error := none }

/-- The catch-branch entry of the classify loop (lines 83-95). -/
def fallbackClassification (e : Str) : Classification :=
  { category := "flora-macro".data, filter := none, species := none, location := none,
    error := some e }

/-- One iteration of the classify loop: the classifier call either fails (HTTP or
parse error, `Except.error`) and the fallback entry is pushed, or succeeds. -/
def classifyPhoto (jsonParse : Str → Option RawClassification)
    (resp : Except Str Str) : Classification :=
  match resp with
  | .error e => fallbackClassification e
  | .ok body =>
      match parseClassificationResponse jsonParse body with
      | .error e => fallbackClassification e
      | .ok c => c

/-- The classify loop over the manifest: every entry gets exactly one outcome. -/
def classifyBatch (jsonParse : Str → Option RawClassification)
    (batch : List (Str × Except Str Str)) : List (Str × Classification) :=
  batch.map (fun pr => (pr.1, classifyPhoto jsonParse pr.2))

/-! ## Manifest builder (import-instagram-folder.js) -/

/-- Caption metadata for one base filename in the metadata index. -/
structure MetaInfo where
  caption : Str
  timestampMs : Option Int
  date : Str
  location : Str
deriving DecidableEq, Repr

/-- An entry of pending-photos.json. -/
structure ManifestEntry where
  filename : Str
  path : Str
  originalPath : Str
  instagramCaption : Str
  instagramTimestamp : Option Int
  instagramDate : Str
  instagramLocation : Str
deriving DecidableEq, Repr

/-- Node `basename(p)`: the part after the last slash. -/
def basenameOf (p : Str) : Str := (p.reverse.takeWhile (fun c => ¬ (c = '/'))).reverse

/-- The manifest record pushed for a copied file (lines 260-269); the falsy-default
chains (`meta.caption || ""` and so on) read off the looked-up metadata. -/
def importEntry (metaIndex : Str → Option MetaInfo) (filePath : Str) : ManifestEntry :=
  let fileName := basenameOf filePath
  let meta := (metaIndex fileName).getD
    { caption := [], timestampMs := none, date := [], location := [] }
  { filename := fileName
    path := pathJoin PENDING_DIR fileName
    originalPath := filePath
    instagramCaption := meta.caption
    instagramTimestamp := optIntTruthy meta.timestampMs
    instagramDate := meta.date
    instagramLocation := meta.location }

/-- The copy loop of import-instagram-folder.js main (lines 248-270).  The pending
directory is modelled by the list of base filenames it contains; a copy adds the
name.  Returns the manifest and the final pending contents. -/
def importLoop (metaIndex : Str → Option MetaInfo) :
    List Str → List Str → List ManifestEntry × List Str
  | pendingNames, [] => ([], pendingNames)
  | pendingNames, filePath :: rest =>
      if basenameOf filePath ∈ pendingNames then importLoop metaIndex pendingNames rest
      else
        let rec2 := importLoop metaIndex (pendingNames ++ [basenameOf filePath]) rest
        (importEntry metaIndex filePath :: rec2.1, rec2.2)

/-! ## Batch processor (batch-process.js) -/

/-- One candidate photo of the posts tree, as built by `getAllPhotos`. -/
structure PhotoFile where
  filename : Str
  folder : Str
  relativePath : Str
  fullPath : Str
  date : Str
  instagramCaption : Str
  instagramLocation : Option Str
deriving DecidableEq, Repr

/-- The progress record of batch-progress.json (timestamps omitted: no claim
involves them). -/
structure Progress where
  processed : List Str
  successful : Nat
  failed : Nat
  errors : List (Str × Str)
  tokensInput : Nat
  tokensOutput : Nat
  cost : ℚ
deriving DecidableEq, Repr

/-- `allPhotos.filter(p => !progress.processed.includes(p.relativePath))` (line 159). -/
def pendingPhotosOf (allPhotos : List PhotoFile) (processed : List Str) : List PhotoFile :=
  allPhotos.filter (fun p => ! decide (p.relativePath ∈ processed))

/-- A successful `processPhoto` result. -/
structure PResult where
  category : Str
  filter : Option Str
  species : Option Str
  location : Option Str
  title : Str
  description : Str
  usage : Option (Nat × Nat)
  slug : Str
  filename : Str
  destPath : Str
  cloudinaryId : Option Str
  dims : Option (Nat × Nat)
  photoDate : Str
deriving DecidableEq, Repr

/-- The static OpenAI price table (dollars per million tokens). -/
def PRICING (model : Str) : Option (ℚ × ℚ) :=
  if model = "gpt-4o-mini".data then some (0.15, 0.60)
  else if model = "gpt-4o".data then some (2.50, 10.00)
  else none

def OPENAI_MODEL : Str := "gpt-4o-mini".data

/-- The per-photo cost expression of the batch loop (batch-process.js line 225). -/
def photoCost (useOllama : Bool) (inputTokens outputTokens : Nat) : ℚ :=
  if useOllama then 0
  else
    let p := (PRICING OPENAI_MODEL).getD (0, 0)
    ((inputTokens : ℚ) * p.1 + (outputTokens : ℚ) * p.2) / 1000000

/-- One iteration of the batch loop's bookkeeping (lines 203-242): on success the
path joins `processed` and tokens/cost accumulate; on failure the path still joins
`processed` and the error is recorded. -/
def stepProgress (useOllama : Bool) (outcome : PhotoFile → Except Str PResult)
    (progress : Progress) (photo : PhotoFile) : Progress × Option PResult :=
  match outcome photo with
  | .ok r =>
      let usage := r.usage.getD (0, 0)
      ({ progress with
          processed := progress.processed ++ [photo.relativePath]
          successful := progress.successful + 1
          tokensInput := progress.tokensInput + usage.1
          tokensOutput := progress.tokensOutput + usage.2
          cost := progress.cost + photoCost useOllama usage.1 usage.2 }, some r)
  | .error e =>
      ({ progress with
          processed := progress.processed ++ [photo.relativePath]
          failed := progress.failed + 1
          errors := progress.errors ++ [(photo.relativePath, e)] }, none)

/-- The batch loop over the selected batch, returning the final progress record and
the successful results in order. -/
def runBatch (useOllama : Bool) (outcome : PhotoFile → Except Str PResult) :
    Progress → List PhotoFile → Progress × List PResult
  | progress, [] => (progress, [])
  | progress, photo :: rest =>
      let step := stepProgress useOllama outcome progress photo
      let rec2 := runBatch useOllama outcome step.1 rest
      (rec2.1, (match step.2 with | some r => [r] | none => []) ++ rec2.2)

/-- `parseInt(photo.id?.split(-).pop(), 10) || 0` (batch-process.js line 816). -/
def idNumOrZero (id : Str) : Nat := (idNum id).getD 0

/-- The `categoryCounters` seeding loop of `updatePhotosYaml` (lines 811-820). -/
def seedCounters (existingPhotos : List Photo) : Str → Nat :=
  existingPhotos.foldl
    (fun cc p => fun c => if c = p.category then max (cc p.category) (idNumOrZero p.id) else cc c)
    (fun _ => 0)

/-- `categoryCounters[category]++`. -/
def bumpCounter (cc : Str → Nat) (category : Str) : Str → Nat :=
  fun c => if c = category then cc category + 1 else cc c

/-- The record built for one result (lines 836-856). -/
def entryOfResult (id : Str) (r : PResult) : Photo :=
  { id := id
    filename := r.filename
    slug := r.slug
    category := r.category
    filters := match r.filter with | some f => if f = [] then [] else [f] | none => []
    species := optTruthy r.species
    location := optTruthy r.location
    title := r.title
    description := r.description
    instagram_caption := none
    date_taken := r.photoDate
    available_for_print := true
    cloudinary_id := optTruthy r.cloudinaryId
    width := r.dims.map Prod.fst
    height := r.dims.map Prod.snd }

/-- The id-allocation map over the results (lines 829-857). -/
def buildEntries (cc : Str → Nat) : List PResult → List Photo
  | [] => []
  | r :: rest =>
      entryOfResult (mkId r.category (cc r.category + 1)) r
        :: buildEntries (bumpCounter cc r.category) rest

/-- `updatePhotosYaml(results)` (lines 801-869): the new store content, written in
one write. -/
def updatePhotosYaml2 (existingPhotos : List Photo) (results : List PResult) :
    List Photo :=
  existingPhotos ++ buildEntries (seedCounters existingPhotos) results

/-! ## Concrete sample values used for scenario conjuncts and witnesses -/

/-- A slug-shaped character: lowercase letter, digit, or hyphen. -/
def isSlugChar (c : Char) : Bool := isLowerAlnum c || decide (c = '-')

/-- A platform oracle with nothing configured and an empty file system. -/
def env0 : Env :=
  { fsExists := fun _ => false
    cloudinaryOn := false
    uploadOk := fun _ => false
    dims := fun _ => none
    today := "2026-01-01".data }

/-- A bare photo record with the four identifying fields set. -/
def samplePhoto (id filename slug category : Str) : Photo :=
  { id := id, filename := filename, slug := slug, category := category, filters := []
    species := none, location := none, title := [], description := []
    instagram_caption := none, date_taken := [], available_for_print := true
    cloudinary_id := none, width := none, height := none }

/-- A bare captioned input with filename, category and title set. -/
def sampleCaptioned (filename category title : Str) : Captioned :=
  { filename := filename, path := pathJoin PENDING_DIR filename, category := category
    filter := none, species := none, location := none, title := title, description := []
    instagramCaption := [], instagramDate := [], instagramTimestamp := none
    instagramLocation := [] }

/-- Scenario inputs: two photos of one batch with the same generated title. -/
def sunset1 : Captioned := sampleCaptioned "s1.jpg".data "landscapes".data "Sunset View".data

def sunset2 : Captioned := sampleCaptioned "s2.jpg".data "landscapes".data "Sunset View".data

/-- A candidate photo file with the given relative path. -/
def samplePhotoFile (rel : Str) : PhotoFile :=
  { filename := basenameOf rel, folder := [], relativePath := rel, fullPath := rel
    date := [], instagramCaption := [], instagramLocation := none }

/-- A successful batch-processing result with the given token usage. -/
def sampleResult (inT outT : Nat) : PResult :=
  { category := "birds".data, filter := none, species := none, location := none
    title := "T".data, description := [], usage := some (inT, outT), slug := "t".data
    filename := "t.jpg".data, destPath := [], cloudinaryId := none, dims := none
    photoDate := [] }

/-- A fresh progress record. -/
def progress0 : Progress :=
  { processed := [], successful := 0, failed := 0, errors := []
    tokensInput := 0, tokensOutput := 0, cost := 0 }

/-- A `JSON.parse` oracle that always throws. -/
def jsonParseFail : Str → Option RawClassification := fun _ => none

/-- A `JSON.parse` oracle returning an object with an invalid category. -/
def jsonParseBadCat : Str → Option RawClassification :=
  fun _ => some { category := some "portraits".data, filter := some "mountains".data
                  species := none, location := none }

theorem splitDash_ne_nil (l : Str) : splitDash l ≠ [] := by
  induction l with
  | nil => simp [splitDash]
  | cons c rest ih =>
      simp only [splitDash]
      split
      · simp
      · cases h : splitDash rest with
        | nil => simp
        | cons a t => simp

theorem splitDash_no_dash (l : Str) (h : '-' ∉ l) : splitDash l = [l] := by
  induction l with
  | nil => rfl
  | cons c rest ih =>
      simp only [List.mem_cons, not_or] at h
      simp only [splitDash]
      rw [if_neg (by exact fun hc => h.1 hc.symm)]
      rw [ih h.2]

theorem splitDash_len_two (l : Str) (h : '-' ∈ l) : 2 ≤ (splitDash l).length := by
  induction l with
  | nil => simp at h
  | cons c rest ih =>
      simp only [splitDash]
      by_cases hc : c = '-'
      · rw [if_pos hc]
        have := splitDash_ne_nil rest
        cases hr : splitDash rest with
        | nil => exact absurd hr this
        | cons a t => simp [List.length]
      · rw [if_neg hc]
        have hmem : '-' ∈ rest := by
          rcases List.mem_cons.mp h with h1 | h2
          · exact absurd h1.symm hc
          · exact h2
        have h2 := ih hmem
        cases hr : splitDash rest with
        | nil => exact absurd hr (splitDash_ne_nil rest)
        | cons a t =>
            rw [hr] at h2
            simp only [List.length] at h2 ⊢
            omega

theorem getLastD_cons_of_ne_nil {α : Type} (a d : α) (t : List α) (h : t ≠ []) :
    (a :: t).getLastD d = t.getLastD d := by
  cases t with
  | nil => exact absurd rfl h
  | cons b t2 => simp [List.getLastD]

theorem lastComponent_append (p d : Str) (h : '-' ∉ d) :
    lastComponent (p ++ '-' :: d) = d := by
  induction p with
  | nil =>
      show lastComponent ('-' :: d) = d
      unfold lastComponent
      rw [show splitDash ('-' :: d) = [] :: splitDash d from by simp [splitDash]]
      rw [getLastD_cons_of_ne_nil _ _ _ (splitDash_ne_nil d)]
      rw [splitDash_no_dash d h]
      rfl
  | cons c rest ih =>
      show lastComponent (c :: (rest ++ '-' :: d)) = d
      unfold lastComponent
      by_cases hc : c = '-'
      · subst hc
        rw [show splitDash ('-' :: (rest ++ '-' :: d)) = [] :: splitDash (rest ++ '-' :: d) from by
          simp [splitDash]]
        rw [getLastD_cons_of_ne_nil _ _ _ (splitDash_ne_nil (rest ++ '-' :: d))]
        exact ih
      · have hmem : '-' ∈ rest ++ '-' :: d := by
          simp
        have hlen := splitDash_len_two _ hmem
        cases hr : splitDash (rest ++ '-' :: d) with
        | nil => exact absurd hr (splitDash_ne_nil _)
        | cons a t =>
            have hs : splitDash (c :: (rest ++ '-' :: d)) = (c :: a) :: t := by
              rw [splitDash, if_neg hc, hr]
            rw [hs]
            rw [hr] at hlen
            simp only [List.length] at hlen
            have ht : t ≠ [] := by
              intro h0
              rw [h0] at hlen
              simp at hlen
            rw [getLastD_cons_of_ne_nil _ _ _ ht]
            unfold lastComponent at ih
            rw [hr] at ih
            rw [getLastD_cons_of_ne_nil _ _ _ ht] at ih
            exact ih

theorem digitChar_toNat (n : Nat) (h : n < 10) : (digitChar n).toNat = 48 + n := by
  interval_cases n <;> decide

theorem isDigit_digitChar (n : Nat) (h : n < 10) : isDigit (digitChar n) = true := by
  interval_cases n <;> decide

theorem natReprAux_all_digits (fuel : Nat) :
    ∀ n, n < fuel → ∀ c ∈ natReprAux fuel n, isDigit c = true := by
  induction fuel with
  | zero => intro n h; omega
  | succ fuel ih =>
      intro n h c hc
      unfold natReprAux at hc
      by_cases h10 : n < 10
      · rw [if_pos h10] at hc
        simp at hc
        subst hc
        exact isDigit_digitChar n h10
      · rw [if_neg h10] at hc
        rcases List.mem_append.mp hc with h1 | h2
        · have hlt : n / 10 < fuel := by
            have := Nat.div_lt_self (by omega : 0 < n) (by omega : 1 < 10)
            omega
          exact ih (n / 10) hlt c h1
        · simp at h2
          subst h2
          exact isDigit_digitChar (n % 10) (Nat.mod_lt n (by omega))

theorem natReprAux_ne_nil (fuel n : Nat) (h : n < fuel) : natReprAux fuel n ≠ [] := by
  cases fuel with
  | zero => omega
  | succ fuel =>
      unfold natReprAux
      by_cases h10 : n < 10
      · rw [if_pos h10]; simp
      · rw [if_neg h10]; simp

theorem digitsVal_append_singleton (l : Str) (c : Char) :
    digitsVal (l ++ [c]) = digitsVal l * 10 + (c.toNat - 48) := by
  unfold digitsVal
  rw [List.foldl_append]
  rfl

theorem digitsVal_natReprAux (fuel : Nat) :
    ∀ n, n < fuel → digitsVal (natReprAux fuel n) = n := by
  induction fuel with
  | zero => intro n h; omega
  | succ fuel ih =>
      intro n h
      unfold natReprAux
      by_cases h10 : n < 10
      · rw [if_pos h10]
        show digitsVal ([] ++ [digitChar n]) = n
        rw [digitsVal_append_singleton, digitChar_toNat n h10]
        simp [digitsVal]
      · rw [if_neg h10]
        have hlt : n / 10 < fuel := by
          have := Nat.div_lt_self (by omega : 0 < n) (by omega : 1 < 10)
          omega
        rw [digitsVal_append_singleton, ih (n / 10) hlt,
            digitChar_toNat (n % 10) (Nat.mod_lt n (by omega))]
        omega

theorem natRepr_all_digits (n : Nat) : ∀ c ∈ natRepr n, isDigit c = true :=
  natReprAux_all_digits (n + 1) n (Nat.lt_succ_self n)

theorem natRepr_ne_nil (n : Nat) : natRepr n ≠ [] :=
  natReprAux_ne_nil (n + 1) n (Nat.lt_succ_self n)

theorem digitsVal_natRepr (n : Nat) : digitsVal (natRepr n) = n :=
  digitsVal_natReprAux (n + 1) n (Nat.lt_succ_self n)

theorem natRepr_injective (a b : Nat) (h : natRepr a = natRepr b) : a = b := by
  have ha := digitsVal_natRepr a
  have hb := digitsVal_natRepr b
  rw [h] at ha
  omega

theorem digitsVal_replicate_zero_append (k : Nat) (l : Str) :
    digitsVal (List.replicate k '0' ++ l) = digitsVal l := by
  induction k with
  | zero => simp
  | succ k ih =>
      rw [List.replicate_succ, List.cons_append]
      show digitsVal (List.replicate k '0' ++ l) = digitsVal l
      exact ih

theorem padStart3_all_digits (l : Str) (h : ∀ c ∈ l, isDigit c = true) :
    ∀ c ∈ padStart3 l, isDigit c = true := by
  intro c hc
  unfold padStart3 at hc
  split at hc
  · exact h c hc
  · rcases List.mem_append.mp hc with h1 | h2
    · have := List.eq_of_mem_replicate h1
      subst this
      decide
    · exact h c h2

theorem digitsVal_padStart3 (l : Str) : digitsVal (padStart3 l) = digitsVal l := by
  unfold padStart3
  split
  · rfl
  · exact digitsVal_replicate_zero_append _ l

theorem padStart3_ne_nil (l : Str) (h : l ≠ []) : padStart3 l ≠ [] := by
  unfold padStart3
  split
  · exact h
  · rename_i hlen
    cases l with
    | nil => exact absurd rfl h
    | cons c t => simp

theorem no_dash_of_all_digits (l : Str) (h : ∀ c ∈ l, isDigit c = true) : '-' ∉ l := by
  intro hmem
  have := h '-' hmem
  simp [isDigit] at this

theorem dropWhile_isJsWs_of_digits (l : Str) (h : ∀ c ∈ l, isDigit c = true) :
    l.dropWhile isJsWs = l := by
  cases l with
  | nil => rfl
  | cons c rest =>
      have hd := h c (List.mem_cons_self c rest)
      have hws : isJsWs c = false := by
        simp [isDigit] at hd
        simp [isJsWs]
        omega
      simp [List.dropWhile, hws]

theorem stripPlus_of_digits (l : Str) (h : ∀ c ∈ l, isDigit c = true) :
    stripPlus l = l := by
  cases l with
  | nil => rfl
  | cons c rest =>
      have hd := h c (List.mem_cons_self c rest)
      have hp : c ≠ '+' := by
        intro he
        subst he
        simp [isDigit] at hd
      simp [stripPlus, hp]

theorem takeWhile_isDigit_of_digits (l : Str) (h : ∀ c ∈ l, isDigit c = true) :
    l.takeWhile isDigit = l := by
  induction l with
  | nil => rfl
  | cons c rest ih =>
      have hd := h c (List.mem_cons_self c rest)
      simp [List.takeWhile, hd]
      exact fun x hx => h x (List.mem_cons_of_mem c hx)

theorem parseIntJs_of_digits (l : Str) (hne : l ≠ []) (h : ∀ c ∈ l, isDigit c = true) :
    parseIntJs l = some (digitsVal l) := by
  unfold parseIntJs
  rw [dropWhile_isJsWs_of_digits l h, stripPlus_of_digits l h,
      takeWhile_isDigit_of_digits l h]
  simp [hne]

theorem acceptPhoto_id (env : Env) (ex acc : List Photo) (c : Captioned) :
    (acceptPhoto env ex acc c).1.id = generateId c.category ex acc := rfl

theorem acceptPhoto_category (env : Env) (ex acc : List Photo) (c : Captioned) :
    (acceptPhoto env ex acc c).1.category = c.category := rfl

theorem acceptPhoto_slug (env : Env) (ex acc : List Photo) (c : Captioned) :
    (acceptPhoto env ex acc c).1.slug = ensureUniqueSlug (generateSlug c.title) ex acc := rfl

theorem processOne_of_skip {env : Env} {ex acc : List Photo} {c : Captioned}
    (h : existingHasFilename ex c.filename = true) :
    processOne env ex acc c = none := by
  simp [processOne, h]

theorem processOne_of_accept {env : Env} {ex acc : List Photo} {c : Captioned}
    (h : existingHasFilename ex c.filename = false) :
    processOne env ex acc c = some (acceptPhoto env ex acc c) := by
  simp [processOne, h]

/-- C9 counterexample: the numeric timestamp value 0 does not normalize to
0 × 1000 = 0 milliseconds as the claim requires of every numeric value — the falsy
check of `normalizeTimestamp` sends it to null instead. -/
theorem normalizeTimestamp_zero_counterexample :
    ¬ (normalizeTimestamp (JsValue.vnum 0)
        = some (if (0 : Int) > 1000000000000 then (0 : Int) else 0 * 1000)) := by
  decide

/-- C9 (amended): for every nonzero numeric metadata timestamp value v, the
normalized millisecond value is v itself when v is greater than 10^12 and v × 1000
otherwise (a value of exactly 10^12 is treated as seconds); a non-numeric, missing,
or zero value normalizes to null; and the normalized milliseconds are converted to
an ISO calendar date string that is the first 10 characters of the ISO timestamp. -/
theorem normalizeTimestamp_spec (v : Int) (hv : v ≠ 0) :
    normalizeTimestamp (JsValue.vnum v) = some (if v > 1000000000000 then v else v * 1000)
    ∧ normalizeTimestamp (JsValue.vnum 0) = none
    ∧ normalizeTimestamp (JsValue.vnum (10 ^ 12)) = some (10 ^ 12 * 1000)
    ∧ normalizeTimestamp JsValue.vnull = none
    ∧ (∀ s : Str, toNumber (JsValue.vstr s) = none →
        normalizeTimestamp (JsValue.vstr s) = none)
    ∧ (∀ t : Int, t ≠ 0 → t.natAbs ≤ 8640000000000000 →
        toDateString (some t) = (toISOString t).take 10)
    ∧ toDateString none = [] := by
  refine ⟨?_, by decide, by decide, by decide, ?_, ?_, rfl⟩
  · simp [normalizeTimestamp, truthy, hv, toNumber]
  · intro s hs
    by_cases hse : s = []
    · subst hse
      simp [toNumber] at hs
    · simp [normalizeTimestamp, truthy, hse, hs]
  · intro t ht habs
    simp [toDateString, ht, habs]

/-- C9 witness: the amended normalization at the concrete nonzero value 5. -/
theorem normalizeTimestamp_spec_witness :
    (5 : Int) ≠ 0
    ∧ normalizeTimestamp (JsValue.vnum 5)
        = some (if (5 : Int) > 1000000000000 then (5 : Int) else 5 * 1000) :=
  ⟨by decide, (normalizeTimestamp_spec 5 (by decide)).1⟩

theorem runBatch_processed (useOllama : Bool) (outcome : PhotoFile → Except Str PResult) :
    ∀ (batch : List PhotoFile) (progress : Progress),
      (runBatch useOllama outcome progress batch).1.processed
        = progress.processed ++ batch.map (fun p => p.relativePath) := by
  intro batch
  induction batch with
  | nil => intro progress; simp [runBatch]
  | cons photo rest ih =>
      intro progress
      cases h : outcome photo with
      | ok r =>
          simp only [runBatch, stepProgress, h]
          rw [ih]
          simp
      | error e =>
          simp only [runBatch, stepProgress, h]
          rw [ih]
          simp

theorem runBatch_cost (useOllama : Bool) (outcome : PhotoFile → Except Str PResult) :
    ∀ (batch : List PhotoFile) (progress : Progress),
      (runBatch useOllama outcome progress batch).1.cost
        = progress.cost + (batch.map (fun p =>
            match outcome p with
            | .ok s => photoCost useOllama (s.usage.getD (0, 0)).1 (s.usage.getD (0, 0)).2
            | .error _ => 0)).sum := by
  intro batch
  induction batch with
  | nil => intro progress; simp [runBatch]
  | cons photo rest ih =>
      intro progress
      cases h : outcome photo with
      | ok r =>
          simp only [runBatch, stepProgress, h]
          rw [ih]
          simp [h, add_assoc]
      | error e =>
          simp only [runBatch, stepProgress, h]
          rw [ih]
          simp [h]

theorem PRICING_model : PRICING OPENAI_MODEL = some (0.15, 0.60) := by
  unfold PRICING OPENAI_MODEL
  rw [if_pos rfl]

/-- C7: for every successfully processed photo, the per-photo cost added to the
progress record's cumulative cost equals
(input_tokens × input_price + output_tokens × output_price) / 1e6 with the prices
taken from the static `PRICING` table keyed by the model name; with Ollama (which
reports no token usage) the per-photo cost is exactly zero; and over a whole batch
the cumulative cost grows by exactly the sum of the per-photo costs of the
successful photos. -/
theorem cost_accounting_spec (useOllama : Bool) (outcome : PhotoFile → Except Str PResult)
    (progress : Progress) (batch : List PhotoFile) (photo : PhotoFile) (r : PResult)
    (inT outT : Nat) (hr : outcome photo = .ok r) :
    (stepProgress useOllama outcome progress photo).1.cost
      = progress.cost + photoCost useOllama (r.usage.getD (0, 0)).1 (r.usage.getD (0, 0)).2
    ∧ PRICING OPENAI_MODEL = some (0.15, 0.60)
    ∧ photoCost false inT outT = ((inT : ℚ) * 0.15 + (outT : ℚ) * 0.60) / 1000000
    ∧ photoCost true inT outT = 0
    ∧ (runBatch useOllama outcome progress batch).1.cost
      = progress.cost + (batch.map (fun p =>
          match outcome p with
          | .ok s => photoCost useOllama (s.usage.getD (0, 0)).1 (s.usage.getD (0, 0)).2
          | .error _ => 0)).sum := by
  refine ⟨?_, PRICING_model, ?_, ?_, runBatch_cost useOllama outcome batch progress⟩
  · simp [stepProgress, hr]
  · simp [photoCost, PRICING_model]
  · simp [photoCost]

/-- C7 witness: the cost bookkeeping at a concrete successful photo with 100 input
and 50 output tokens. -/
theorem cost_accounting_spec_witness :
    (fun _ : PhotoFile => Except.ok (ε := Str) (sampleResult 100 50))
        (samplePhotoFile "202401/a.jpg".data) = Except.ok (sampleResult 100 50)
    ∧ (stepProgress false (fun _ => Except.ok (sampleResult 100 50)) progress0
        (samplePhotoFile "202401/a.jpg".data)).1.cost
      = progress0.cost
        + photoCost false (((sampleResult 100 50).usage.getD (0, 0)).1)
            (((sampleResult 100 50).usage.getD (0, 0)).2)
    ∧ photoCost false 100 50 = ((100 : ℚ) * 0.15 + (50 : ℚ) * 0.60) / 1000000 :=
  ⟨rfl,
   (cost_accounting_spec false (fun _ => Except.ok (sampleResult 100 50)) progress0 []
      (samplePhotoFile "202401/a.jpg".data) (sampleResult 100 50) 100 50 rfl).1,
   (cost_accounting_spec false (fun _ => Except.ok (sampleResult 100 50)) progress0 []
      (samplePhotoFile "202401/a.jpg".data) (sampleResult 100 50) 100 50 rfl).2.2.1⟩

/-- C4: on every startup the pending batch is exactly the recomputed candidate set
minus the paths already in the progress record's processed list — membership in
`processed` is the only criterion, so prior success or failure is irrelevant, and
the persisted photo store is not consulted at all (`pendingPhotosOf` does not take
it); the batch loop appends the path to `processed` on failure just as on success,
so a failed photo is never automatically retried; concretely, a candidate with
relative path 202401/a.jpg is excluded whenever that path is in `processed`. -/
theorem resume_rule_spec (useOllama : Bool) (outcome : PhotoFile → Except Str PResult)
    (allPhotos cands2 batch : List PhotoFile) (progress : Progress) :
    (∀ p ∈ allPhotos, p.relativePath ∈ progress.processed →
        p ∉ pendingPhotosOf allPhotos progress.processed)
    ∧ (∀ p ∈ allPhotos, p.relativePath ∉ progress.processed →
        p ∈ pendingPhotosOf allPhotos progress.processed)
    ∧ (runBatch useOllama outcome progress batch).1.processed
        = progress.processed ++ batch.map (fun p => p.relativePath)
    ∧ (∀ p ∈ batch,
        p ∉ pendingPhotosOf cands2 (runBatch useOllama outcome progress batch).1.processed)
    ∧ pendingPhotosOf [samplePhotoFile "202401/a.jpg".data] ["202401/a.jpg".data] = [] := by
  refine ⟨?_, ?_, runBatch_processed useOllama outcome batch progress, ?_, by decide⟩
  · intro p _ hproc hmem
    rw [pendingPhotosOf, List.mem_filter] at hmem
    simp at hmem
    exact hmem.2 hproc
  · intro p hp hproc
    rw [pendingPhotosOf, List.mem_filter]
    simp
    exact ⟨hp, hproc⟩
  · intro p hp hmem
    rw [pendingPhotosOf, List.mem_filter] at hmem
    simp at hmem
    refine hmem.2 ?_
    rw [runBatch_processed useOllama outcome batch progress]
    exact List.mem_append_right _ (List.mem_map_of_mem _ hp)

/-- C4 witness: the resume rule at a concrete one-element candidate set whose path
already sits in `processed`. -/
theorem resume_rule_spec_witness :
    samplePhotoFile "202401/a.jpg".data ∈ [samplePhotoFile "202401/a.jpg".data]
    ∧ "202401/a.jpg".data
        ∈ ({ progress0 with processed := ["202401/a.jpg".data] } : Progress).processed
    ∧ samplePhotoFile "202401/a.jpg".data
        ∉ pendingPhotosOf [samplePhotoFile "202401/a.jpg".data]
            ({ progress0 with processed := ["202401/a.jpg".data] } : Progress).processed :=
  ⟨by decide, by decide,
   (resume_rule_spec false (fun _ => Except.error "e".data)
      [samplePhotoFile "202401/a.jpg".data] [] []
      { progress0 with processed := ["202401/a.jpg".data] }).1
     (samplePhotoFile "202401/a.jpg".data) (by decide) (by decide)⟩

theorem categoryOfParsed_mem (parsed : RawClassification) :
    categoryOfParsed parsed ∈ validCategoriesJs := by
  unfold categoryOfParsed
  cases h : parsed.category with
  | none => decide
  | some s =>
      by_cases hs : s ∈ validCategoriesJs
      · simp [hs]
      · simp [hs]
        decide

theorem filterOfParsed_spec (category : Str) (parsed : RawClassification) (f : Str)
    (h : filterOfParsed category parsed = some f) :
    category = "landscapes".data ∧ f ∈ validFiltersJs := by
  unfold filterOfParsed at h
  by_cases hc : category = "landscapes".data
  · rw [if_pos hc] at h
    refine ⟨hc, ?_⟩
    cases hf : parsed.filter with
    | none => rw [hf] at h; exact absurd h (by simp)
    | some g =>
        rw [hf] at h
        by_cases hg : g ∈ validFiltersJs
        · simp [hg] at h
          exact h ▸ hg
        · simp [hg] at h
  · rw [if_neg hc] at h
    exact absurd h (by simp)

/-- C5 counterexample: a response carrying a JSON object whose category is outside
the enumeration is normalized silently — the outcome has category flora-macro and
null filter but NO error recorded on the entry, refuting the claim's assertion
that such responses record the error (only thrown errors reach the catch branch
that records one). -/
theorem classifier_error_recording_counterexample :
    (classifyPhoto jsonParseBadCat (Except.ok "a\x7bb\x7dc".data)).category
        = "flora-macro".data
    ∧ (classifyPhoto jsonParseBadCat (Except.ok "a\x7bb\x7dc".data)).filter = none
    ∧ (classifyPhoto jsonParseBadCat (Except.ok "a\x7bb\x7dc".data)).error = none := by
  decide

/-- C5 (amended): the classify loop yields exactly one outcome per input (the loop
is total: every classifier exception is caught and becomes the fallback entry,
never escaping the batch); a failed call or a response with no JSON object yields
the fallback entry with category flora-macro, null filter and the error recorded;
a parsed object whose category is outside the enumeration is silently normalized
to flora-macro with null filter and NO error recorded; and in every outcome the
category is one of the four valid categories and the filter is non-null only when
the category is landscapes and the filter is a valid landscape sub-tag. -/
theorem classifier_fallback_spec (jsonParse : Str → Option RawClassification)
    (batch : List (Str × Except Str Str)) :
    (classifyBatch jsonParse batch).length = batch.length
    ∧ (∀ e, classifyPhoto jsonParse (.error e) = fallbackClassification e)
    ∧ (∀ body, extractJsonSpan body = none →
        classifyPhoto jsonParse (.ok body)
          = fallbackClassification "No JSON found in response".data)
    ∧ (∀ body sub parsed, extractJsonSpan body = some sub → jsonParse sub = some parsed →
        (∀ s, parsed.category = some s → s ∉ validCategoriesJs) →
        (classifyPhoto jsonParse (.ok body)).category = "flora-macro".data
          ∧ (classifyPhoto jsonParse (.ok body)).filter = none
          ∧ (classifyPhoto jsonParse (.ok body)).error = none)
    ∧ (∀ resp, (classifyPhoto jsonParse resp).category ∈ validCategoriesJs)
    ∧ (∀ resp f, (classifyPhoto jsonParse resp).filter = some f →
        (classifyPhoto jsonParse resp).category = "landscapes".data
          ∧ f ∈ validFiltersJs) := by
  have hfb : ∀ e, classifyPhoto jsonParse (.error e) = fallbackClassification e :=
    fun e => rfl
  refine ⟨by simp [classifyBatch], hfb, ?_, ?_, ?_, ?_⟩
  · intro body h
    simp [classifyPhoto, parseClassificationResponse, h]
  · intro body sub parsed h1 h2 hbad
    have hcat : categoryOfParsed parsed = "flora-macro".data := by
      unfold categoryOfParsed
      cases hc : parsed.category with
      | none => rfl
      | some s => simp [hbad s hc]
    have : classifyPhoto jsonParse (.ok body)
        = { category := categoryOfParsed parsed
            filter := filterOfParsed (categoryOfParsed parsed) parsed
            species := optTruthy parsed.species
            location := optTruthy parsed.location
            error := none } := by
      simp [classifyPhoto, parseClassificationResponse, h1, h2]
    rw [this]
    refine ⟨hcat, ?_, rfl⟩
    show filterOfParsed (categoryOfParsed parsed) parsed = none
    rw [hcat]
    unfold filterOfParsed
    rw [if_neg (by decide)]
  · intro resp
    cases resp with
    | error e =>
        rw [hfb]
        show ("flora-macro".data : Str) ∈ validCategoriesJs
        decide
    | ok body =>
        unfold classifyPhoto
        cases h1 : extractJsonSpan body with
        | none => simp [parseClassificationResponse, h1]; decide
        | some sub =>
            cases h2 : jsonParse sub with
            | none => simp [parseClassificationResponse, h1, h2]; decide
            | some parsed =>
                simp [parseClassificationResponse, h1, h2]
                exact categoryOfParsed_mem parsed
  · intro resp f hf
    cases resp with
    | error e => rw [hfb] at hf ⊢; exact absurd hf (by simp [fallbackClassification])
    | ok body =>
        unfold classifyPhoto at hf ⊢
        cases h1 : extractJsonSpan body with
        | none =>
            simp [parseClassificationResponse, h1] at hf ⊢
            exact absurd hf (by simp [fallbackClassification])
        | some sub =>
            cases h2 : jsonParse sub with
            | none =>
                simp [parseClassificationResponse, h1, h2] at hf ⊢
                exact absurd hf (by simp [fallbackClassification])
            | some parsed =>
                simp [parseClassificationResponse, h1, h2] at hf ⊢
                exact filterOfParsed_spec _ parsed f hf

/-- C5 witness: the fallback outcome on a concrete response with no JSON object,
via a parse oracle that always fails. -/
theorem classifier_fallback_spec_witness :
    extractJsonSpan "no json here".data = none
    ∧ classifyPhoto jsonParseFail (.ok "no json here".data)
        = fallbackClassification "No JSON found in response".data :=
  ⟨by decide,
   (classifier_fallback_spec jsonParseFail []).2.2.1 "no json here".data (by decide)⟩

theorem importLoop_cons_skip {metaIndex : Str → Option MetaInfo} {pending : List Str}
    {f : Str} {rest : List Str} (h : basenameOf f ∈ pending) :
    importLoop metaIndex pending (f :: rest) = importLoop metaIndex pending rest := by
  simp only [importLoop]
  rw [if_pos h]

theorem importLoop_cons_copy {metaIndex : Str → Option MetaInfo} {pending : List Str}
    {f : Str} {rest : List Str} (h : basenameOf f ∉ pending) :
    importLoop metaIndex pending (f :: rest)
      = (importEntry metaIndex f
          :: (importLoop metaIndex (pending ++ [basenameOf f]) rest).1,
         (importLoop metaIndex (pending ++ [basenameOf f]) rest).2) := by
  simp only [importLoop]
  rw [if_neg h]

theorem importLoop_filter (metaIndex : Str → Option MetaInfo) (S : List Str) :
    ∀ (files pendingNames : List Str), S ⊆ pendingNames →
      importLoop metaIndex pendingNames files
        = importLoop metaIndex pendingNames
            (files.filter (fun f => ! decide (basenameOf f ∈ S))) := by
  intro files
  induction files with
  | nil => intro pending _; rfl
  | cons f rest ih =>
      intro pending hS
      by_cases hb : basenameOf f ∈ S
      · have hbp : basenameOf f ∈ pending := hS hb
        have hfil : (f :: rest).filter (fun g => ! decide (basenameOf g ∈ S))
            = rest.filter (fun g => ! decide (basenameOf g ∈ S)) := by
          simp [List.filter_cons, hb]
        rw [hfil, importLoop_cons_skip hbp]
        exact ih pending hS
      · have hfil : (f :: rest).filter (fun g => ! decide (basenameOf g ∈ S))
            = f :: rest.filter (fun g => ! decide (basenameOf g ∈ S)) := by
          simp [List.filter_cons, hb]
        rw [hfil]
        by_cases hbp : basenameOf f ∈ pending
        · rw [importLoop_cons_skip hbp, importLoop_cons_skip hbp]
          exact ih pending hS
        · rw [importLoop_cons_copy hbp, importLoop_cons_copy hbp]
          have hS2 : S ⊆ pending ++ [basenameOf f] :=
            fun x hx => List.mem_append_left _ (hS hx)
          rw [ih (pending ++ [basenameOf f]) hS2]

theorem importLoop_names (metaIndex : Str → Option MetaInfo) :
    ∀ (files pendingNames : List Str),
      (((importLoop metaIndex pendingNames files).1.map (fun e => e.filename)).Nodup
        ∧ ∀ e ∈ (importLoop metaIndex pendingNames files).1, e.filename ∉ pendingNames) := by
  intro files
  induction files with
  | nil => intro pending; constructor <;> simp [importLoop]
  | cons f rest ih =>
      intro pending
      by_cases hbp : basenameOf f ∈ pending
      · rw [importLoop_cons_skip hbp]
        exact ih pending
      · rw [importLoop_cons_copy hbp]
        have ih2 := ih (pending ++ [basenameOf f])
        constructor
        · simp only [List.map_cons, List.nodup_cons]
          constructor
          · intro hmem
            rcases List.mem_map.mp hmem with ⟨e, he, heq⟩
            have := ih2.2 e he
            rw [heq] at this
            exact this (List.mem_append_right _ (List.mem_singleton_self _))
          · exact ih2.1
        · intro e he
          rcases List.mem_cons.mp he with h1 | h2
          · subst h1
            exact hbp
          · intro hmem
            exact ih2.2 e h2 (List.mem_append_left _ hmem)

theorem importLoop_pending_mem (metaIndex : Str → Option MetaInfo) :
    ∀ (files pendingNames : List Str),
      (∀ x ∈ pendingNames, x ∈ (importLoop metaIndex pendingNames files).2)
        ∧ ∀ f ∈ files, basenameOf f ∈ (importLoop metaIndex pendingNames files).2 := by
  intro files
  induction files with
  | nil => intro pending; constructor <;> simp [importLoop]
  | cons f rest ih =>
      intro pending
      by_cases hbp : basenameOf f ∈ pending
      · rw [importLoop_cons_skip hbp]
        refine ⟨(ih pending).1, ?_⟩
        intro g hg
        rcases List.mem_cons.mp hg with h1 | h2
        · subst h1
          exact (ih pending).1 _ hbp
        · exact (ih pending).2 g h2
      · rw [importLoop_cons_copy hbp]
        have ih2 := ih (pending ++ [basenameOf f])
        refine ⟨?_, ?_⟩
        · intro x hx
          exact ih2.1 x (List.mem_append_left _ hx)
        · intro g hg
          rcases List.mem_cons.mp hg with h1 | h2
          · subst h1
            exact ih2.1 _ (List.mem_append_right _ (List.mem_singleton_self _))
          · exact ih2.2 g h2

theorem importLoop_all_skip (metaIndex : Str → Option MetaInfo) :
    ∀ (files pendingNames : List Str),
      (∀ f ∈ files, basenameOf f ∈ pendingNames) →
      importLoop metaIndex pendingNames files = ([], pendingNames) := by
  intro files
  induction files with
  | nil => intro pending _; rfl
  | cons f rest ih =>
      intro pending h
      rw [importLoop_cons_skip (h f (List.mem_cons_self f rest))]
      exact ih pending (fun g hg => h g (List.mem_cons_of_mem f hg))

/-- C8: a media file whose base filename already exists at the pending destination
is skipped — not copied and given no manifest record — so a run behaves exactly as
if those files were absent; one run copies each base filename at most once (the
manifest filenames are pairwise distinct and disjoint from the initial pending
contents); and a second run over the same source folder copies nothing and
produces an empty manifest. -/
theorem import_idempotent_spec (metaIndex : Str → Option MetaInfo)
    (pendingNames files : List Str) :
    importLoop metaIndex pendingNames files
      = importLoop metaIndex pendingNames
          (files.filter (fun f => ! decide (basenameOf f ∈ pendingNames)))
    ∧ ((importLoop metaIndex pendingNames files).1.map (fun e => e.filename)).Nodup
    ∧ (∀ e ∈ (importLoop metaIndex pendingNames files).1, e.filename ∉ pendingNames)
    ∧ importLoop metaIndex (importLoop metaIndex pendingNames files).2 files
        = ([], (importLoop metaIndex pendingNames files).2) := by
  refine ⟨importLoop_filter metaIndex pendingNames files pendingNames (fun x hx => hx),
          (importLoop_names metaIndex files pendingNames).1,
          (importLoop_names metaIndex files pendingNames).2,
          importLoop_all_skip metaIndex files _ ?_⟩
  intro f hf
  exact (importLoop_pending_mem metaIndex files pendingNames).2 f hf

/-- C8 witness: a concrete run where one of the two source files is already
pending: it is skipped, the other is copied once, and the second run is empty. -/
theorem import_idempotent_spec_witness :
    ((importLoop (fun _ => none) ["a.jpg".data]
        ["src/a.jpg".data, "src/b.jpg".data]).1.map (fun e => e.filename)
      = ["b.jpg".data])
    ∧ (∀ e ∈ (importLoop (fun _ => none) ["a.jpg".data]
          ["src/a.jpg".data, "src/b.jpg".data]).1, e.filename ∉ ["a.jpg".data])
    ∧ importLoop (fun _ => none)
        (importLoop (fun _ => none) ["a.jpg".data]
          ["src/a.jpg".data, "src/b.jpg".data]).2
        ["src/a.jpg".data, "src/b.jpg".data]
      = ([], (importLoop (fun _ => none) ["a.jpg".data]
          ["src/a.jpg".data, "src/b.jpg".data]).2) :=
  ⟨by decide,
   (import_idempotent_spec (fun _ => none) ["a.jpg".data]
      ["src/a.jpg".data, "src/b.jpg".data]).2.2.1,
   (import_idempotent_spec (fun _ => none) ["a.jpg".data]
      ["src/a.jpg".data, "src/b.jpg".data]).2.2.2⟩

theorem mem_mapNonAlnum (l : Str) : ∀ c ∈ mapNonAlnum l, isSlugChar c = true := by
  intro c hc
  rcases List.mem_map.mp hc with ⟨a, _, rfl⟩
  by_cases h : isLowerAlnum a = true
  · simp [h, isSlugChar]
  · simp only [isSlugChar]
    rw [if_neg h]
    decide

theorem mem_squeezeDashes (l : Str) : ∀ c ∈ squeezeDashes l, c ∈ l := by
  induction l with
  | nil => intro c hc; exact absurd hc (by simp [squeezeDashes])
  | cons c1 tail ih =>
      intro c hc
      cases tail with
      | nil => exact hc
      | cons c2 rest =>
          unfold squeezeDashes at hc
          split at hc
          · exact List.mem_cons_of_mem c1 (ih c hc)
          · rcases List.mem_cons.mp hc with h1 | h2
            · subst h1; exact List.mem_cons_self c _
            · exact List.mem_cons_of_mem c1 (ih c h2)

theorem mem_trimLeadDash (l : Str) : ∀ c ∈ trimLeadDash l, c ∈ l := by
  intro c hc
  unfold trimLeadDash at hc
  split at hc
  · exact hc
  · split at hc
    · exact List.mem_cons_of_mem _ hc
    · exact hc

theorem mem_trimTrailDash (l : Str) : ∀ c ∈ trimTrailDash l, c ∈ l := by
  intro c hc
  unfold trimTrailDash at hc
  split at hc
  · exact hc
  · rename_i a rest heq
    split at hc
    · have h1 : c ∈ a :: rest := List.mem_cons_of_mem a (List.mem_reverse.mp hc)
      rw [← heq] at h1
      exact List.mem_reverse.mp h1
    · exact hc

theorem mapNonAlnum_all_dash (l : Str) (h : ∀ ch ∈ l, isLowerAlnum ch = false) :
    mapNonAlnum l = List.replicate l.length '-' := by
  induction l with
  | nil => rfl
  | cons c rest ih =>
      have hc := h c (List.mem_cons_self c rest)
      show (if isLowerAlnum c then c else '-')
          :: mapNonAlnum rest = List.replicate (rest.length + 1) '-'
      rw [if_neg (by rw [hc]; exact Bool.false_ne_true),
          ih (fun x hx => h x (List.mem_cons_of_mem c hx)), List.replicate_succ]

theorem squeezeDashes_replicate (n : Nat) :
    squeezeDashes (List.replicate n '-') = if n = 0 then [] else ['-'] := by
  induction n with
  | zero => rfl
  | succ n ih =>
      cases n with
      | zero => rfl
      | succ m =>
          rw [List.replicate_succ, List.replicate_succ]
          show squeezeDashes ('-' :: '-' :: List.replicate m '-') = _
          unfold squeezeDashes
          rw [if_pos ⟨rfl, rfl⟩, ← List.replicate_succ, ih]
          simp

/-- A title none of whose JS-lowercased characters lies in a-z0-9 slugs to the
empty string: every character becomes a hyphen, the run collapses to one hyphen,
and the trim removes it. -/
theorem generateSlug_empty_of_no_alnum (title : Str)
    (h : ∀ ch ∈ (title.map jsToLower).flatten, isLowerAlnum ch = false) :
    generateSlug title = [] := by
  unfold generateSlug
  rw [mapNonAlnum_all_dash _ h, squeezeDashes_replicate]
  by_cases hn : (title.map jsToLower).flatten.length = 0
  · rw [if_pos hn]
    rfl
  · rw [if_neg hn]
    rfl

/-- C10 counterexample: the title İ (the single code point U+0130) contains no
ASCII characters at all — in particular no ASCII alphanumerics — yet its slug is
"i", not the empty string: JS `toLowerCase` maps U+0130 into ASCII, so the claim's
universal "no ASCII alphanumerics implies empty slug" fails on the code. -/
theorem generateSlug_unicode_counterexample :
    "İ".data.all (fun ch => decide (127 < ch.toNat)) = true
    ∧ ¬ (generateSlug "İ".data = []) := by
  decide

/-- C10 (amended): for every title, `generateSlug` returns a string of length at
most 50 drawn only from lowercase ASCII letters, digits and hyphens; a title none
of whose JS-lowercased characters is an ASCII alphanumeric yields the empty slug —
in particular "!!!" does — and that empty slug flows unchecked into the accepted
record (empty slug field, filename equal to the bare extension, id still
allocated) with no rejection or special-casing; however a title with no ASCII
alphanumerics can still slug non-empty, since JS `toLowerCase` maps U+0130 and
U+212A into ASCII: the title İ yields the slug i. -/
theorem generateSlug_shape_spec (title : Str) :
    (generateSlug title).length ≤ 50
    ∧ (∀ c ∈ generateSlug title, isSlugChar c = true)
    ∧ ((∀ ch ∈ (title.map jsToLower).flatten, isLowerAlnum ch = false) →
        generateSlug title = [])
    ∧ generateSlug "!!!".data = []
    ∧ ((processBatch env0 []
          [sampleCaptioned "x.jpg".data "flora-macro".data "!!!".data]).1.map
        (fun p => p.slug)) = [[]]
    ∧ ((processBatch env0 []
          [sampleCaptioned "x.jpg".data "flora-macro".data "!!!".data]).1.map
        (fun p => p.filename)) = [".jpg".data]
    ∧ ((processBatch env0 []
          [sampleCaptioned "x.jpg".data "flora-macro".data "!!!".data]).1.map
        (fun p => p.id)) = ["flora-001".data]
    ∧ generateSlug "İ".data = "i".data := by
  refine ⟨?_, ?_, generateSlug_empty_of_no_alnum title, by decide, by decide, by decide,
          by decide, by decide⟩
  · unfold generateSlug
    rw [List.length_take]
    exact Nat.min_le_left 50 _
  · intro c hc
    unfold generateSlug at hc
    have h1 := List.take_subset 50 _ hc
    have h2 := mem_trimTrailDash _ c h1
    have h3 := mem_trimLeadDash _ c h2
    have h4 := mem_squeezeDashes _ c h3
    exact mem_mapNonAlnum _ c h4

/-- C10 witness: the shape bounds at "Sunset View" and the no-alnum-lowercase rule
discharged at the concrete title "!!!". -/
theorem generateSlug_shape_spec_witness :
    (generateSlug "Sunset View".data).length ≤ 50
    ∧ generateSlug "!!!".data = [] :=
  ⟨(generateSlug_shape_spec "Sunset View".data).1,
   (generateSlug_shape_spec "!!!".data).2.2.1 (by decide)⟩

/-- C6 counterexample: an invocation whose only input is already present in the
store performs zero writes of photos.yaml, not exactly one — the merge step
returns early without writing when no new record was accepted. -/
theorem merge_write_counterexample :
    ¬ (mergeWriteCount env0
        [samplePhoto "bird-001".data "a.jpg".data "a".data "birds".data]
        [sampleCaptioned "a.jpg".data "birds".data "A title".data] = 1) := by
  decide

/-- C6 (amended): the merge step writes the persisted store at most once per
invocation — exactly once when at least one record was accepted this run, zero
times otherwise — and the resulting store content is exactly the previously
persisted records, unchanged and in their original order, followed by all newly
accepted records; the batch processor's `updatePhotosYaml` write has the same
existing-prefix-plus-new-entries shape. -/
theorem merge_write_spec (env : Env) (ex : List Photo) (inputs : List Captioned)
    (results : List PResult) :
    mergeStore env ex inputs = ex ++ (processBatch env ex inputs).1
    ∧ (mergeStore env ex inputs).take ex.length = ex
    ∧ mergeWriteCount env ex inputs ≤ 1
    ∧ ((processBatch env ex inputs).1 ≠ [] → mergeWriteCount env ex inputs = 1)
    ∧ updatePhotosYaml2 ex results = ex ++ buildEntries (seedCounters ex) results
    ∧ (updatePhotosYaml2 ex results).take ex.length = ex := by
  refine ⟨rfl, ?_, ?_, ?_, rfl, ?_⟩
  · unfold mergeStore
    exact List.take_left ex _
  · unfold mergeWriteCount
    split <;> omega
  · intro h
    unfold mergeWriteCount
    rw [if_neg h]
  · unfold updatePhotosYaml2
    exact List.take_left ex _

/-- C6 witness: the amended write rule at a concrete accepting run (one fresh
photo, so exactly one write) . -/
theorem merge_write_spec_witness :
    (processBatch env0 [] [sunset1]).1 ≠ []
    ∧ mergeWriteCount env0 [] [sunset1] = 1 :=
  ⟨by decide, (merge_write_spec env0 [] [sunset1] []).2.2.2.1 (by decide)⟩

theorem processBatchAux_filter (env : Env) (ex : List Photo) :
    ∀ (inputs : List Captioned) (acc : List Photo) (effs : List Effect),
      processBatchAux env ex inputs acc effs
        = processBatchAux env ex
            (inputs.filter (fun c => ! existingHasFilename ex c.filename)) acc effs := by
  intro inputs
  induction inputs with
  | nil => intro acc effs; rfl
  | cons c rest ih =>
      intro acc effs
      cases h : existingHasFilename ex c.filename with
      | true =>
          have hfil : (c :: rest).filter (fun d => ! existingHasFilename ex d.filename)
              = rest.filter (fun d => ! existingHasFilename ex d.filename) := by
            simp [List.filter_cons, h]
          rw [hfil]
          simp only [processBatchAux, processOne_of_skip h]
          exact ih acc effs
      | false =>
          have hfil : (c :: rest).filter (fun d => ! existingHasFilename ex d.filename)
              = c :: rest.filter (fun d => ! existingHasFilename ex d.filename) := by
            simp [List.filter_cons, h]
          rw [hfil]
          simp only [processBatchAux, processOne_of_accept h]
          exact ih _ _

theorem processBatchAux_all_skip (env : Env) (ex : List Photo) :
    ∀ (inputs : List Captioned) (acc : List Photo) (effs : List Effect),
      (∀ c ∈ inputs, existingHasFilename ex c.filename = true) →
      processBatchAux env ex inputs acc effs = (acc, effs) := by
  intro inputs
  induction inputs with
  | nil => intro acc effs _; rfl
  | cons c rest ih =>
      intro acc effs h
      simp only [processBatchAux, processOne_of_skip (h c (List.mem_cons_self c rest))]
      exact ih acc effs (fun d hd => h d (List.mem_cons_of_mem c hd))

/-- C1: a captioned input whose filename is already present (as the filename field
of some record) in the persisted store is skipped entirely by the merge step — the
whole run (accepted records and effect trace alike) equals the run on the input
list with those photos removed — and when every input's filename is already
present, no record is accepted, no side effect is performed, the store content is
unchanged and the store file is not even written. -/
theorem merge_skip_duplicates_spec (env : Env) (ex : List Photo)
    (inputs : List Captioned) :
    processBatch env ex inputs
      = processBatch env ex (inputs.filter (fun c => ! existingHasFilename ex c.filename))
    ∧ ((∀ c ∈ inputs, existingHasFilename ex c.filename = true) →
        (processBatch env ex inputs).1 = []
        ∧ (processBatch env ex inputs).2 = []
        ∧ mergeStore env ex inputs = ex
        ∧ mergeWriteCount env ex inputs = 0) := by
  constructor
  · exact processBatchAux_filter env ex inputs [] []
  · intro h
    have hrun : processBatch env ex inputs = ([], []) :=
      processBatchAux_all_skip env ex inputs [] [] h
    refine ⟨by rw [hrun], by rw [hrun], ?_, ?_⟩
    · unfold mergeStore
      rw [hrun]
      simp
    · unfold mergeWriteCount
      rw [hrun]
      rfl

/-- C1 witness: a concrete all-duplicates run — the single input's filename is
already stored, so nothing is added, no effect happens, and nothing is written. -/
theorem merge_skip_duplicates_spec_witness :
    (∀ c ∈ [sampleCaptioned "a.jpg".data "birds".data "A title".data],
        existingHasFilename [samplePhoto "bird-001".data "a.jpg".data "a".data "birds".data]
          c.filename = true)
    ∧ (processBatch env0 [samplePhoto "bird-001".data "a.jpg".data "a".data "birds".data]
        [sampleCaptioned "a.jpg".data "birds".data "A title".data]).1 = []
    ∧ mergeStore env0 [samplePhoto "bird-001".data "a.jpg".data "a".data "birds".data]
        [sampleCaptioned "a.jpg".data "birds".data "A title".data]
      = [samplePhoto "bird-001".data "a.jpg".data "a".data "birds".data] :=
  ⟨by decide,
   ((merge_skip_duplicates_spec env0
      [samplePhoto "bird-001".data "a.jpg".data "a".data "birds".data]
      [sampleCaptioned "a.jpg".data "birds".data "A title".data]).2 (by decide)).1,
   ((merge_skip_duplicates_spec env0
      [samplePhoto "bird-001".data "a.jpg".data "a".data "birds".data]
      [sampleCaptioned "a.jpg".data "birds".data "A title".data]).2 (by decide)).2.2.1⟩

theorem padStart3_natRepr_digits (n : Nat) : ∀ c ∈ padStart3 (natRepr n), isDigit c = true :=
  padStart3_all_digits _ (natRepr_all_digits n)

theorem idNum_mkId (category : Str) (n : Nat) : idNum (mkId category n) = some n := by
  unfold idNum mkId
  rw [lastComponent_append _ _ (no_dash_of_all_digits _ (padStart3_natRepr_digits n))]
  rw [parseIntJs_of_digits _ (padStart3_ne_nil _ (natRepr_ne_nil n)) (padStart3_natRepr_digits n)]
  rw [digitsVal_padStart3, digitsVal_natRepr]

theorem catIds_append (c : Str) (l1 l2 : List Photo) :
    catIds c (l1 ++ l2) = catIds c l1 ++ catIds c l2 := by
  simp [catIds, List.filter_append]

theorem foldl_max_le_init : ∀ (l : List Nat) (a : Nat), a ≤ l.foldl max a := by
  intro l
  induction l with
  | nil => intro a; exact le_refl a
  | cons x t ih => intro a; exact le_trans (le_max_left a x) (ih (max a x))

theorem mem_le_foldl_max : ∀ (l : List Nat) (a : Nat), ∀ x ∈ l, x ≤ l.foldl max a := by
  intro l
  induction l with
  | nil => intro a x hx; exact absurd hx (by simp)
  | cons y t ih =>
      intro a x hx
      rcases List.mem_cons.mp hx with h1 | h2
      · subst h1
        exact le_trans (le_max_right a x) (foldl_max_le_init t (max a x))
      · exact ih (max a y) x h2

theorem generateId_eq (category : Str) (ex acc : List Photo) :
    generateId category ex acc
      = mkId category
          (((catIds category ex ++ catIds category acc).filterMap idNum).foldl max 0 + 1) :=
  rfl

theorem maxIdNum_append_pair (c : Str) (l1 l2 : List Photo) :
    maxIdNum c (l1 ++ l2)
      = ((catIds c l1 ++ catIds c l2).filterMap idNum).foldl max 0 := by
  unfold maxIdNum
  rw [catIds_append]

theorem newOfCat_append_one_of_cat {c : Str} {p : Photo} (hp : p.category = c)
    (l : List Photo) : newOfCat c (l ++ [p]) = newOfCat c l ++ [p] := by
  unfold newOfCat
  rw [List.filter_append]
  simp [hp]

theorem newOfCat_append_one_of_ne {c : Str} {p : Photo} (hp : ¬ p.category = c)
    (l : List Photo) : newOfCat c (l ++ [p]) = newOfCat c l := by
  unfold newOfCat
  rw [List.filter_append]
  simp [hp]

theorem maxIdNum_append_one_of_cat {c : Str} {p : Photo} (hp : p.category = c)
    (l : List Photo) (v : Nat) (hv : idNum p.id = some v) :
    maxIdNum c (l ++ [p]) = max (maxIdNum c l) v := by
  unfold maxIdNum
  rw [catIds_append]
  have h1 : catIds c [p] = [p.id] := by simp [catIds, hp]
  rw [h1, List.filterMap_append]
  have h2 : [p.id].filterMap idNum = [v] := by simp [List.filterMap, hv]
  rw [h2, List.foldl_append]
  rfl

theorem maxIdNum_append_one_of_ne {c : Str} {p : Photo} (hp : ¬ p.category = c)
    (l : List Photo) : maxIdNum c (l ++ [p]) = maxIdNum c l := by
  unfold maxIdNum
  rw [catIds_append]
  have h1 : catIds c [p] = [] := by simp [catIds, hp]
  rw [h1, List.append_nil]

theorem processBatchAux_ids (env : Env) (ex : List Photo) (c : Str) :
    ∀ (inputs : List Captioned) (acc : List Photo) (effs : List Effect),
      ((newOfCat c acc).map (fun p => p.id)
          = (List.range (newOfCat c acc).length).map
              (fun k => mkId c (maxIdNum c ex + (k + 1)))
        ∧ maxIdNum c (ex ++ acc) = maxIdNum c ex + (newOfCat c acc).length) →
      ((newOfCat c (processBatchAux env ex inputs acc effs).1).map (fun p => p.id)
          = (List.range (newOfCat c (processBatchAux env ex inputs acc effs).1).length).map
              (fun k => mkId c (maxIdNum c ex + (k + 1)))
        ∧ maxIdNum c (ex ++ (processBatchAux env ex inputs acc effs).1)
          = maxIdNum c ex + (newOfCat c (processBatchAux env ex inputs acc effs).1).length) := by
  intro inputs
  induction inputs with
  | nil => intro acc effs hinv; exact hinv
  | cons cap rest ih =>
      intro acc effs hinv
      cases h : existingHasFilename ex cap.filename with
      | true =>
          simp only [processBatchAux, processOne_of_skip h]
          exact ih acc effs hinv
      | false =>
          simp only [processBatchAux, processOne_of_accept h]
          apply ih
          have hpid : (acceptPhoto env ex acc cap).1.id = generateId cap.category ex acc := rfl
          have hpcat : (acceptPhoto env ex acc cap).1.category = cap.category := rfl
          by_cases hc : cap.category = c
          · have hcat2 : (acceptPhoto env ex acc cap).1.category = c := by rw [hpcat, hc]
            have hid2 : (acceptPhoto env ex acc cap).1.id
                = mkId c (maxIdNum c ex + ((newOfCat c acc).length + 1)) := by
              rw [hpid, hc, generateId_eq]
              rw [← maxIdNum_append_pair, hinv.2, Nat.add_assoc]
            constructor
            · rw [newOfCat_append_one_of_cat hcat2]
              rw [List.length_append, List.length_singleton, List.range_succ,
                  List.map_append, List.map_append, hinv.1]
              simp [hid2]
            · rw [← List.append_assoc,
                  maxIdNum_append_one_of_cat hcat2 (ex ++ acc)
                    (maxIdNum c ex + ((newOfCat c acc).length + 1))
                    (by rw [hid2]; exact idNum_mkId c _),
                  hinv.2, newOfCat_append_one_of_cat hcat2, List.length_append]
              simp [Nat.max_eq_right]
          · have hcat2 : ¬ (acceptPhoto env ex acc cap).1.category = c := by
              rw [hpcat]; exact hc
            constructor
            · rw [newOfCat_append_one_of_ne hcat2]
              exact hinv.1
            · rw [← List.append_assoc, maxIdNum_append_one_of_ne hcat2 (ex ++ acc),
                  newOfCat_append_one_of_ne hcat2]
              exact hinv.2

theorem buildEntries_ids (c : Str) :
    ∀ (results : List PResult) (cc : Str → Nat),
      ((buildEntries cc results).filter (fun p => decide (p.category = c))).map
          (fun p => p.id)
        = (List.range (results.countP (fun r => decide (r.category = c)))).map
            (fun k => mkId c (cc c + (k + 1))) := by
  intro results
  induction results with
  | nil => intro cc; rfl
  | cons r rest ih =>
      intro cc
      by_cases hc : r.category = c
      · subst hc
        have hbump : (bumpCounter cc r.category) r.category = cc r.category + 1 := by
          unfold bumpCounter
          rw [if_pos rfl]
        rw [buildEntries, List.filter_cons, List.countP_cons]
        have hcat : (entryOfResult (mkId r.category (cc r.category + 1)) r).category
            = r.category := rfl
        rw [if_pos (by rw [hcat]; simp), List.map_cons]
        have hid : (entryOfResult (mkId r.category (cc r.category + 1)) r).id
            = mkId r.category (cc r.category + 1) := rfl
        rw [hid, ih (bumpCounter cc r.category), hbump]
        rw [if_pos (by simp), List.range_succ_eq_map, List.map_cons, List.map_map]
        refine List.cons_eq_cons.mpr ⟨by rw [Nat.zero_add], ?_⟩
        refine List.map_congr_left ?_
        intro k _
        show mkId r.category (cc r.category + 1 + (k + 1))
            = mkId r.category (cc r.category + (k.succ + 1))
        exact congrArg (mkId r.category) (by omega)
      · rw [buildEntries, List.filter_cons, List.countP_cons]
        have hcat : (entryOfResult (mkId r.category (cc r.category + 1)) r).category
            = r.category := rfl
        rw [if_neg (by rw [hcat]; simp [hc]), ih (bumpCounter cc r.category)]
        have hbump : (bumpCounter cc r.category) c = cc c := by
          unfold bumpCounter
          rw [if_neg (fun he => hc he.symm)]
        rw [hbump, if_neg (by simp [hc])]
        simp

theorem seedFold_point (c : Str) :
    ∀ (ex : List Photo) (g : Str → Nat),
      (ex.foldl
        (fun cc p => fun x =>
          if x = p.category then max (cc p.category) (idNumOrZero p.id) else cc x) g) c
        = ex.foldl
            (fun a p => if c = p.category then max a (idNumOrZero p.id) else a) (g c) := by
  intro ex
  induction ex with
  | nil => intro g; rfl
  | cons p rest ih =>
      intro g
      rw [List.foldl_cons, List.foldl_cons, ih]
      congr 1
      by_cases hc : c = p.category
      · simp only [if_pos hc]
        rw [hc]
      · simp only [if_neg hc]

theorem foldl_maxif_eq (c : Str) :
    ∀ (ex : List Photo) (a : Nat),
      ex.foldl (fun a p => if c = p.category then max a (idNumOrZero p.id) else a) a
        = ((catIds c ex).filterMap idNum).foldl max a := by
  intro ex
  induction ex with
  | nil => intro a; rfl
  | cons p rest ih =>
      intro a
      rw [List.foldl_cons]
      by_cases hc : c = p.category
      · rw [if_pos hc]
        have hcat : catIds c (p :: rest) = p.id :: catIds c rest := by
          unfold catIds
          rw [List.filter_cons, if_pos (by simp [hc.symm])]
          rfl
        rw [hcat]
        cases hv : idNum p.id with
        | some v =>
            have : (p.id :: catIds c rest).filterMap idNum = v :: (catIds c rest).filterMap idNum := by
              simp [List.filterMap_cons, hv]
            rw [this, List.foldl_cons]
            have : idNumOrZero p.id = v := by simp [idNumOrZero, hv]
            rw [this, ih]
        | none =>
            have : (p.id :: catIds c rest).filterMap idNum = (catIds c rest).filterMap idNum := by
              simp [List.filterMap_cons, hv]
            rw [this]
            have : idNumOrZero p.id = 0 := by simp [idNumOrZero, hv]
            rw [this, Nat.max_zero]
            exact ih a
      · rw [if_neg hc]
        have hcat : catIds c (p :: rest) = catIds c rest := by
          unfold catIds
          rw [List.filter_cons, if_neg (by simp; exact fun he => hc he.symm)]
        rw [hcat]
        exact ih a

theorem seedCounters_eq_maxIdNum (ex : List Photo) (c : Str) :
    seedCounters ex c = maxIdNum c ex := by
  unfold seedCounters maxIdNum
  rw [seedFold_point c ex (fun _ => 0), foldl_maxif_eq c ex 0]

/-- C2: for every category, a generated id is the category prefix joined by a
hyphen to the zero-padded sequence number one greater than the maximum existing
numeric suffix for that category, scanning persisted and already-accepted records
alike — so the ids accepted for a category in one run are exactly the consecutive
range from previous-maximum + 1 with no gaps, the new maximum is the previous
maximum plus the number of new photos of that category, no new id collides with a
parsable persisted id of that category, and the batch processor's counter-based
allocator (`updatePhotosYaml` of batch-process.js) allocates the same consecutive
range starting from the same maximum. -/
theorem generateId_spec (env : Env) (ex : List Photo) (inputs : List Captioned)
    (results : List PResult) (c : Str) :
    (newOfCat c (processBatch env ex inputs).1).map (fun p => p.id)
      = (List.range (newOfCat c (processBatch env ex inputs).1).length).map
          (fun k => mkId c (maxIdNum c ex + (k + 1)))
    ∧ maxIdNum c (ex ++ (processBatch env ex inputs).1)
      = maxIdNum c ex + (newOfCat c (processBatch env ex inputs).1).length
    ∧ (∀ q ∈ newOfCat c (processBatch env ex inputs).1, q.id ∉ catIds c ex)
    ∧ ((buildEntries (seedCounters ex) results).filter
          (fun p => decide (p.category = c))).map (fun p => p.id)
      = (List.range (results.countP (fun r => decide (r.category = c)))).map
          (fun k => mkId c (maxIdNum c ex + (k + 1)))
    ∧ seedCounters ex c = maxIdNum c ex := by
  unfold processBatch
  have hbase : ((newOfCat c ([] : List Photo)).map (fun p => p.id)
      = (List.range (newOfCat c ([] : List Photo)).length).map
          (fun k => mkId c (maxIdNum c ex + (k + 1)))
    ∧ maxIdNum c (ex ++ ([] : List Photo))
      = maxIdNum c ex + (newOfCat c ([] : List Photo)).length) := by
    constructor
    · rfl
    · rw [List.append_nil]
      rfl
  have hmain := processBatchAux_ids env ex c inputs [] [] hbase
  refine ⟨hmain.1, hmain.2, ?_, ?_, seedCounters_eq_maxIdNum ex c⟩
  · intro q hq hqex
    have hqid := List.mem_map_of_mem (fun p => p.id) hq
    rw [hmain.1] at hqid
    rcases List.mem_map.mp hqid with ⟨k, _, hkeq⟩
    have hkeq2 : mkId c (maxIdNum c ex + (k + 1)) = q.id := hkeq
    have hidq : idNum q.id = some (maxIdNum c ex + (k + 1)) := by
      rw [← hkeq2]
      exact idNum_mkId c _
    have hmem2 : (maxIdNum c ex + (k + 1)) ∈ (catIds c ex).filterMap idNum :=
      List.mem_filterMap.mpr ⟨q.id, hqex, hidq⟩
    have hle := mem_le_foldl_max _ 0 _ hmem2
    have hM : ((catIds c ex).filterMap idNum).foldl max 0 = maxIdNum c ex := rfl
    rw [hM] at hle
    omega
  · rw [buildEntries_ids c results (seedCounters ex), seedCounters_eq_maxIdNum ex c]

/-- C2 witness: two fresh bird photos on a store whose birds maximum is 2 get the
ids bird-003 and bird-004, matching the range form of the theorem. -/
theorem generateId_spec_witness :
    ((newOfCat "birds".data (processBatch env0
        [samplePhoto "bird-002".data "b.jpg".data "b".data "birds".data]
        [sampleCaptioned "c.jpg".data "birds".data "Heron".data,
         sampleCaptioned "d.jpg".data "birds".data "Egret".data]).1).map (fun p => p.id)
      = (List.range (newOfCat "birds".data (processBatch env0
            [samplePhoto "bird-002".data "b.jpg".data "b".data "birds".data]
            [sampleCaptioned "c.jpg".data "birds".data "Heron".data,
             sampleCaptioned "d.jpg".data "birds".data "Egret".data]).1).length).map
          (fun k => mkId "birds".data
            (maxIdNum "birds".data
              [samplePhoto "bird-002".data "b.jpg".data "b".data "birds".data] + (k + 1))))
    ∧ ((newOfCat "birds".data (processBatch env0
        [samplePhoto "bird-002".data "b.jpg".data "b".data "birds".data]
        [sampleCaptioned "c.jpg".data "birds".data "Heron".data,
         sampleCaptioned "d.jpg".data "birds".data "Egret".data]).1).map (fun p => p.id)
      = ["bird-003".data, "bird-004".data]) :=
  ⟨(generateId_spec env0
      [samplePhoto "bird-002".data "b.jpg".data "b".data "birds".data]
      [sampleCaptioned "c.jpg".data "birds".data "Heron".data,
       sampleCaptioned "d.jpg".data "birds".data "Egret".data] [] "birds".data).1,
   by decide⟩

theorem slugWith_inj (s : Str) {j k : Nat} (h : slugWith s j = slugWith s k) : j = k := by
  unfold slugWith at h
  have h2 := List.append_cancel_left h
  injection h2 with _ h3
  exact natRepr_injective j k h3

theorem exists_free_suffix (slugs : List Str) (s : Str) (c : Nat) :
    ∃ k, c ≤ k ∧ k ≤ c + slugs.length ∧ slugWith s k ∉ slugs := by
  by_contra hcon
  push_neg at hcon
  have hsub : ((List.range (slugs.length + 1)).map (fun i => slugWith s (c + i))) ⊆ slugs := by
    intro x hx
    rcases List.mem_map.mp hx with ⟨i, hi, rfl⟩
    have hi2 := List.mem_range.mp hi
    exact hcon (c + i) (Nat.le_add_right c i) (by omega)
  have hinj : Function.Injective (fun i => slugWith s (c + i)) := by
    intro a b hab
    have := slugWith_inj s hab
    omega
  have hnd := List.Nodup.map hinj (List.nodup_range (n := slugs.length + 1))
  have hlen := (List.subperm_of_subset hnd hsub).length_le
  simp at hlen

theorem findSuffix_spec (slugs : List Str) (s : Str) :
    ∀ (fuel c : Nat),
      (∃ k, c ≤ k ∧ k < c + fuel + 1 ∧ slugWith s k ∉ slugs) →
      ∃ k, c ≤ k ∧ findSuffix slugs s c fuel = slugWith s k ∧ slugWith s k ∉ slugs
        ∧ ∀ j, c ≤ j → j < k → slugWith s j ∈ slugs := by
  intro fuel
  induction fuel with
  | zero =>
      intro c hex
      rcases hex with ⟨k, hk1, hk2, hk3⟩
      have hkc : k = c := by omega
      subst hkc
      exact ⟨k, le_refl k, rfl, hk3,
             fun j hj1 hj2 => absurd (lt_of_le_of_lt hj1 hj2) (lt_irrefl k)⟩
  | succ fuel ih =>
      intro c hex
      by_cases hc : slugWith s c ∈ slugs
      · have hex2 : ∃ k, c + 1 ≤ k ∧ k < (c + 1) + fuel + 1 ∧ slugWith s k ∉ slugs := by
          rcases hex with ⟨k, hk1, hk2, hk3⟩
          have hkc : k ≠ c := fun he => hk3 (he ▸ hc)
          exact ⟨k, by omega, by omega, hk3⟩
        rcases ih (c + 1) hex2 with ⟨k, hk1, hk2, hk3, hk4⟩
        refine ⟨k, by omega, ?_, hk3, ?_⟩
        · simp only [findSuffix]
          rw [if_pos hc]
          exact hk2
        · intro j hj1 hj2
          by_cases hjc : j = c
          · subst hjc
            exact hc
          · exact hk4 j (by omega) hj2
      · refine ⟨c, le_refl c, ?_, hc,
                fun j hj1 hj2 => absurd (lt_of_le_of_lt hj1 hj2) (lt_irrefl c)⟩
        simp only [findSuffix]
        rw [if_neg hc]

theorem ensureUniqueSlug_not_mem (s : Str) (ex acc : List Photo) :
    ensureUniqueSlug s ex acc ∉ allSlugsOf ex acc := by
  unfold ensureUniqueSlug
  by_cases hs : s ∈ allSlugsOf ex acc
  · rw [if_pos hs]
    rcases exists_free_suffix (allSlugsOf ex acc) s 2 with ⟨k, hk1, hk2, hk3⟩
    rcases findSuffix_spec (allSlugsOf ex acc) s ((allSlugsOf ex acc).length + 1) 2
        ⟨k, hk1, by omega, hk3⟩ with ⟨k2, _, heq, hnot, _⟩
    rw [heq]
    exact hnot
  · rw [if_neg hs]
    exact hs

theorem ensureUniqueSlug_spec (s : Str) (ex acc : List Photo)
    (hs : s ∈ allSlugsOf ex acc) :
    ∃ k, 2 ≤ k ∧ ensureUniqueSlug s ex acc = slugWith s k
      ∧ slugWith s k ∉ allSlugsOf ex acc
      ∧ ∀ j, 2 ≤ j → j < k → slugWith s j ∈ allSlugsOf ex acc := by
  unfold ensureUniqueSlug
  rw [if_pos hs]
  rcases exists_free_suffix (allSlugsOf ex acc) s 2 with ⟨k, hk1, hk2, hk3⟩
  exact findSuffix_spec (allSlugsOf ex acc) s ((allSlugsOf ex acc).length + 1) 2
    ⟨k, hk1, by omega, hk3⟩

theorem processBatchAux_slugs (env : Env) (ex : List Photo) :
    ∀ (inputs : List Captioned) (acc : List Photo) (effs : List Effect),
      ((acc.map (fun p => p.slug)).Nodup
        ∧ ∀ t ∈ acc.map (fun p => p.slug), t ∉ ex.map (fun p => p.slug)) →
      (((processBatchAux env ex inputs acc effs).1.map (fun p => p.slug)).Nodup
        ∧ ∀ t ∈ (processBatchAux env ex inputs acc effs).1.map (fun p => p.slug),
            t ∉ ex.map (fun p => p.slug)) := by
  intro inputs
  induction inputs with
  | nil => intro acc effs h; exact h
  | cons cap rest ih =>
      intro acc effs hinv
      cases h : existingHasFilename ex cap.filename with
      | true =>
          simp only [processBatchAux, processOne_of_skip h]
          exact ih acc effs hinv
      | false =>
          simp only [processBatchAux, processOne_of_accept h]
          apply ih
          have hnm : (acceptPhoto env ex acc cap).1.slug ∉ allSlugsOf ex acc :=
            ensureUniqueSlug_not_mem (generateSlug cap.title) ex acc
          have hnmEx : (acceptPhoto env ex acc cap).1.slug ∉ ex.map (fun p => p.slug) := by
            intro hmem
            exact hnm (List.mem_append_left _ hmem)
          have hnmAcc : (acceptPhoto env ex acc cap).1.slug ∉ acc.map (fun p => p.slug) := by
            intro hmem
            exact hnm (List.mem_append_right _ hmem)
          constructor
          · rw [List.map_append]
            rw [List.nodup_append]
            refine ⟨hinv.1, by simp, ?_⟩
            intro t ht hts
            rcases List.mem_map.mp hts with ⟨p2, hp2, hpeq⟩
            have hp2s : p2 = (acceptPhoto env ex acc cap).1 := by
              rcases List.mem_singleton.mp hp2 with h2
              exact h2
            rw [hp2s] at hpeq
            rw [hpeq] at hnmAcc
            exact hnmAcc ht
          · intro t ht
            rw [List.map_append] at ht
            rcases List.mem_append.mp ht with h1 | h2
            · exact hinv.2 t h1
            · rcases List.mem_map.mp h2 with ⟨p2, hp2, hpeq⟩
              have hp2s : p2 = (acceptPhoto env ex acc cap).1 :=
                List.mem_singleton.mp hp2
              rw [hp2s] at hpeq
              rw [← hpeq]
              exact hnmEx

/-- C3: the slugs accepted in one merge run are pairwise distinct and distinct
from every slug already in the persisted store; `ensureUniqueSlug` always returns
a slug outside the union of existing and already-added-this-run slugs, resolving a
collision by appending the hyphenated counter with the smallest free value
starting from 2; in particular two photos of one batch with the same generated
title "Sunset View" get the slugs sunset-view and sunset-view-2. -/
theorem slug_uniqueness_spec (env : Env) (ex newPhotos : List Photo)
    (inputs : List Captioned) (s : Str) :
    ((processBatch env ex inputs).1.map (fun p => p.slug)).Nodup
    ∧ (∀ t ∈ (processBatch env ex inputs).1.map (fun p => p.slug),
        t ∉ ex.map (fun p => p.slug))
    ∧ ensureUniqueSlug s ex newPhotos ∉ allSlugsOf ex newPhotos
    ∧ (s ∈ allSlugsOf ex newPhotos →
        ∃ k, 2 ≤ k ∧ ensureUniqueSlug s ex newPhotos = slugWith s k
          ∧ slugWith s k ∉ allSlugsOf ex newPhotos
          ∧ ∀ j, 2 ≤ j → j < k → slugWith s j ∈ allSlugsOf ex newPhotos)
    ∧ ((processBatch env0 [] [sunset1, sunset2]).1.map (fun p => p.slug)
        = ["sunset-view".data, "sunset-view-2".data]) := by
  unfold processBatch
  have hrun := processBatchAux_slugs env ex inputs [] [] (by constructor <;> simp)
  exact ⟨hrun.1, hrun.2, ensureUniqueSlug_not_mem s ex newPhotos,
         fun hs => ensureUniqueSlug_spec s ex newPhotos hs, by decide⟩

/-- C3 witness: the collision-suffixing conclusion discharged at a concrete store
already containing the slug sunset-view. -/
theorem slug_uniqueness_spec_witness :
    "sunset-view".data
      ∈ allSlugsOf
          [samplePhoto "landscape-001".data "sv.jpg".data "sunset-view".data
            "landscapes".data] []
    ∧ (∃ k, 2 ≤ k
        ∧ ensureUniqueSlug "sunset-view".data
            [samplePhoto "landscape-001".data "sv.jpg".data "sunset-view".data
              "landscapes".data] []
          = slugWith "sunset-view".data k
        ∧ slugWith "sunset-view".data k
            ∉ allSlugsOf
                [samplePhoto "landscape-001".data "sv.jpg".data "sunset-view".data
                  "landscapes".data] []
        ∧ ∀ j, 2 ≤ j → j < k →
            slugWith "sunset-view".data j
              ∈ allSlugsOf
                  [samplePhoto "landscape-001".data "sv.jpg".data "sunset-view".data
                    "landscapes".data] []) :=
  ⟨by decide,
   (slug_uniqueness_spec env0
      [samplePhoto "landscape-001".data "sv.jpg".data "sunset-view".data
        "landscapes".data] [] [] "sunset-view".data).2.2.2.1 (by decide)⟩
